import Mathlib

/-!
Shallow embedding of `gw2util` (`main.go`): a profile manager that swaps a
named save-profile file into the active position, launches the game client,
and restores/rotates backups when the client exits.

The filesystem is modelled as a total map from path strings to file states.
A file state is `absent`, `present` (with its byte content), or
`unstatable` — the latter models a file on which `os.Stat` fails with an
error other than not-exist (e.g. permission denied), which the code's
`FileExists` treats as existing.

Go functions that return `error` are modelled as functions returning the
updated filesystem together with an optional error (mirroring Go's
`(value, err)` convention), so that partial effects of failed operations
remain observable.
-/

namespace Gw2Util

/-- State of a single path in the filesystem. -/
inductive FileState where
  | absent : FileState
  | present (content : List Nat) : FileState
  | unstatable : FileState
deriving DecidableEq, Repr

/-- A filesystem: a total map from path strings to file states. -/
def FS : Type := String → FileState

/-- Errors produced by the modelled OS calls. -/
inductive IOError where
  | notExist (path : String) : IOError
  | ioError (path : String) : IOError
deriving DecidableEq, Repr

/-- Point update of a filesystem. -/
def setFS (path : String) (v : FileState) (fs : FS) : FS :=
  fun q => if q = path then v else fs q

/-- The error component of `os.Stat file` (`none` when stat succeeds). -/
def osStatErr (file : String) (fs : FS) : Option IOError :=
  match fs file with
  | .present _ => none
  | .absent => some (.notExist file)
  | .unstatable => some (.ioError file)

/-- `os.IsNotExist err` (false on a nil error). -/
def isNotExist : Option IOError → Bool
  | some (.notExist _) => true
  | _ => false

/-- `FileExists` (main.go:203-206): `_, err := os.Stat(file); return !os.IsNotExist(err)`. -/
def FileExists (file : String) (fs : FS) : Bool :=
  !(isNotExist (osStatErr file fs))

/-- `os.Rename(oldp, newp)`: moves the file at `oldp` to `newp`
(overwriting `newp`); fails if `oldp` cannot be read. -/
def osRename (oldp newp : String) (fs : FS) : FS × Option IOError :=
  match fs oldp with
  | .present c => (setFS newp (.present c) (setFS oldp .absent fs), none)
  | .absent => (fs, some (.notExist oldp))
  | .unstatable => (fs, some (.ioError oldp))

/-- `os.RemoveAll(path)`: removes the path; a missing path is not an error. -/
def osRemoveAll (path : String) (fs : FS) : FS × Option IOError :=
  match fs path with
  | .unstatable => (fs, some (.ioError path))
  | _ => (setFS path .absent fs, none)

/-- `SimpleCopy` (main.go:182-200): open `src`, create `dst`, copy the bytes. -/
def SimpleCopy (src dst : String) (fs : FS) : FS × Option IOError :=
  match fs src with
  | .absent => (fs, some (.notExist src))
  | .unstatable => (fs, some (.ioError src))
  | .present c =>
    match fs dst with
    | .unstatable => (fs, some (.ioError dst))
    | _ => (setFS dst (.present c) fs, none)

/-- `SimpleBackup` (main.go:162-169): if the file exists, rename it to `file + ".bak"`. -/
def SimpleBackup (file : String) (fs : FS) : FS × Option IOError :=
  if FileExists file fs then osRename file (file ++ ".bak") fs
  else (fs, none)

/-- `SimpleRestore` (main.go:172-179): if `file + ".bak"` exists, rename it back to `file`. -/
def SimpleRestore (file : String) (fs : FS) : FS × Option IOError :=
  if FileExists (file ++ ".bak") fs then osRename (file ++ ".bak") file fs
  else (fs, none)

/-! ### Decimal rendering (`fmt.Sprintf("%d", i)`) and ASCII lowercasing -/

/-- The ASCII digit character for `n < 10`. -/
def digitChar (n : Nat) : Char := Char.ofNat (48 + n)

/-- Decimal digits of `n`, most significant first, with explicit fuel
(the fuel is always sufficient at `n + 1`). -/
def natDigsF : Nat → Nat → List Char
  | 0, _ => []
  | f+1, n => if n < 10 then [digitChar n] else natDigsF f (n / 10) ++ [digitChar (n % 10)]

/-- Decimal rendering of a natural number. -/
def natRepr (n : Nat) : String := ⟨natDigsF (n+1) n⟩

/-- Decimal rendering of an integer (Go `%d` for `int`). -/
def intRepr : Int → String
  | .ofNat m => natRepr m
  | .negSucc m => "-" ++ natRepr (m+1)

/-- ASCII lowercasing of one character (model of Go `strings.ToLower` on ASCII). -/
def lowerChar (c : Char) : Char :=
  if 65 ≤ c.toNat ∧ c.toNat ≤ 90 then Char.ofNat (c.toNat + 32) else c

/-- `strings.ToLower` (adequate for the ASCII profile names in play). -/
def strToLower (s : String) : String := ⟨s.data.map lowerChar⟩

/-! ### Paths (main.go:35-37) and the `Profile` type (main.go:95-107)

The Windows build (`GOOS=windows`) joins paths with a backslash. The value
of the `APPDATA` environment variable is a parameter `ad` throughout. -/

/-- `filepath.Join` on the Windows build. -/
def joinPath (dir file : String) : String := dir ++ "\\" ++ file

/-- `ProfileDir = filepath.Join(os.Getenv("APPDATA"), "Guild Wars 2")`. -/
def ProfileDir (ad : String) : String := joinPath ad "Guild Wars 2"

/-- `LoadedProfile = filepath.Join(ProfileDir, "Local.dat")` — the active file. -/
def LoadedProfile (ad : String) : String := joinPath (ProfileDir ad) "Local.dat"

/-- `ExecPath` (main.go:35): the single, fixed executable path. -/
def ExecPath : String := "C:\\Program Files (x86)\\Guild Wars 2\\Gw2-64.exe"

/-- The `Profile` struct (main.go:95-100).  `path` is the unexported field,
zero-valued (`""`) everywhere in the program. -/
structure Profile where
  Name : String
  Options : List String
  Preserve : Int
  path : String := ""

/-- `Profile.Path` (main.go:102-107). -/
def Profile.Path (ad : String) (p : Profile) : String :=
  if p.path ≠ "" then p.path else joinPath (ProfileDir ad) (p.Name ++ ".dat")

/-- `Profile.getBackup` (main.go:157-159): `fmt.Sprintf("%s.%d", this.Path(), i)`. -/
def Profile.getBackup (ad : String) (p : Profile) (i : Int) : String :=
  p.Path ad ++ "." ++ intRepr i

/-! ### RollBackups (main.go:139-155) -/

/-- The descending loop `for i := Preserve-1; i > 0; i--` of `RollBackups`:
fuel `k` plays the role of the loop counter `i`; at counter `k+1` the loop
renames backup `k` to backup `k+1` when backup `k` exists. -/
def rollLoop (ad : String) (p : Profile) : Nat → FS → FS × Option IOError
  | 0, fs => (fs, none)
  | k+1, fs =>
    if FileExists (p.getBackup ad (Int.ofNat k)) fs then
      match osRename (p.getBackup ad (Int.ofNat k)) (p.getBackup ad (Int.ofNat (k+1))) fs with
      | (fs1, some e) => (fs1, some e)
      | (fs1, none) => rollLoop ad p k fs1
    else rollLoop ad p k fs

/-- `Profile.RollBackups` (main.go:139-155). -/
def Profile.RollBackups (ad : String) (p : Profile) (fs : FS) : FS × Option IOError :=
  if p.Preserve < 1 then (fs, none)
  else
    match osRemoveAll (p.getBackup ad (p.Preserve - 1)) fs with
    | (fs1, some e) => (fs1, some e)
    | (fs1, none) =>
      match rollLoop ad p (p.Preserve - 1).toNat fs1 with
      | (fs2, some e) => (fs2, some e)
      | (fs2, none) => osRename (p.Path ad) (p.getBackup ad 0) fs2

/-- `Profile.LoadFile` (main.go:110-119): back up the active file, then copy
the profile's saved file into the active position. -/
def Profile.LoadFile (ad : String) (p : Profile) (fs : FS) : FS × Option IOError :=
  match SimpleBackup (LoadedProfile ad) fs with
  | (fs1, some e) => (fs1, some e)
  | (fs1, none) => SimpleCopy (p.Path ad) (LoadedProfile ad) fs1

/-- `Profile.UnloadFile` (main.go:122-136): rotate backups, copy the active
file back to the saved position, restore the original active file. -/
def Profile.UnloadFile (ad : String) (p : Profile) (fs : FS) : FS × Option IOError :=
  match p.RollBackups ad fs with
  | (fs1, some e) => (fs1, some e)
  | (fs1, none) =>
    match SimpleCopy (LoadedProfile ad) (p.Path ad) fs1 with
    | (fs2, some e) => (fs2, some e)
    | (fs2, none) => SimpleRestore (LoadedProfile ad) fs2

/-! ### Launch and the main sequence (main.go:39-93, 209-220) -/

/-- `LaunchGW2` (main.go:90-93): `exec.Command(ExecPath, options...).Run()`.
There is no candidate search: the single fixed `ExecPath` is invoked.  The
result of the child process itself (including a non-zero exit status, which
`Run` reports as an error) is the parameter `childResult`; the filesystem is
not modified (any writes by the child are outside this model). -/
def LaunchGW2 (options : List String) (fs : FS) (childResult : Option IOError) :
    Option IOError :=
  match fs ExecPath with
  | .present _ => childResult
  | .absent => some (.notExist ExecPath)
  | .unstatable => some (.ioError ExecPath)

/-- Steps of the main sequence, in the order they were attempted. -/
inductive Ev where
  | load : Ev
  | launch : Ev
  | unload : Ev
deriving DecidableEq, Repr

/-- Observable outcome of one program run: final filesystem, attempted
steps in order, process exit code, whether the blocking "press enter"
prompt was shown, errors surfaced through that prompt, and errors that
were silently discarded. -/
structure RunOut where
  fs : FS
  events : List Ev
  exitCode : Nat
  prompted : Bool
  surfaced : List IOError
  discarded : List IOError

/-- `main` (main.go:39-87) after flag parsing, for a given profile.
Faithful points: `Exit(err)` (main.go:209-220) prompts and calls
`os.Exit(1)`, which skips the deferred `UnloadFile`; on the success path the
deferred `profile.UnloadFile()` runs but its returned error is discarded and
the process exits 0. -/
def mainRun (ad : String) (p : Profile) (childResult : Option IOError) (fs : FS) : RunOut :=
  if strToLower p.Name ≠ "local" then
    match p.LoadFile ad fs with
    | (fs1, some e) => ⟨fs1, [.load], 1, true, [e], []⟩
    | (fs1, none) =>
      match LaunchGW2 p.Options fs1 childResult with
      | some e => ⟨fs1, [.load, .launch], 1, true, [e], []⟩
      | none =>
        match p.UnloadFile ad fs1 with
        | (fs2, some e) => ⟨fs2, [.load, .launch, .unload], 0, false, [], [e]⟩
        | (fs2, none) => ⟨fs2, [.load, .launch, .unload], 0, false, [], []⟩
  else
    match LaunchGW2 p.Options fs childResult with
    | some e => ⟨fs, [.launch], 1, true, [e], []⟩
    | none => ⟨fs, [.launch], 0, false, [], []⟩

/-- The last character of a string, if any. -/
def strLast (s : String) : Option Char := s.data.getLast?

/-- Launch as the SPEC describes it (sections 4.1 and 6): an ordered list
of candidate executable paths, the 32/64-bit binary variants under two
installation-root environment variables; the first existing candidate is
invoked.  This definition follows the spec's words and exists only to be
compared with `LaunchGW2` above, which the source implements with the
single fixed `ExecPath` and no search. -/
def specLaunchCandidates (env : String → String) : List String :=
  [ joinPath (env "ProgramFiles") "Guild Wars 2\\Gw2-64.exe",
    joinPath (env "ProgramFiles") "Guild Wars 2\\Gw2.exe",
    joinPath (env "ProgramFiles(x86)") "Guild Wars 2\\Gw2-64.exe",
    joinPath (env "ProgramFiles(x86)") "Guild Wars 2\\Gw2.exe" ]

/-- Spec-described launch: invoke the first existing candidate, "not found"
error if and only if no candidate exists. -/
def specLaunch (env : String → String) (fs : FS) (childResult : Option IOError) :
    Option IOError :=
  match (specLaunchCandidates env).find? (fun cand => FileExists cand fs) with
  | some _ => childResult
  | none => some (.notExist "Gw2")

/-! ### The load/launch/unload state machine (for the `.bak` invariant)

The program only ever invokes the three operations in the pattern its
control flow enforces: a Load from the idle state (with a non-"local"
profile name and the zero-valued `path` field, as `main` constructs the
profile), any number of launches, then the matching Unload of the same
profile.  The machine state `loaded p b` records the loaded profile and
whether the Load found an existing active file. -/

inductive MState where
  | idle : MState
  | loaded (p : Profile) (hadActive : Bool) : MState

inductive Step (ad : String) : FS → MState → FS → MState → Prop where
  | load (p : Profile) (fs fs1 : FS) (hpath : p.path = "")
      (hname : strToLower p.Name ≠ "local")
      (h : p.LoadFile ad fs = (fs1, none)) :
      Step ad fs .idle fs1 (.loaded p (FileExists (LoadedProfile ad) fs))
  | launch (fs : FS) (st : MState) : Step ad fs st fs st
  | unload (p : Profile) (b : Bool) (fs fs1 : FS)
      (h : p.UnloadFile ad fs = (fs1, none)) :
      Step ad fs (.loaded p b) fs1 .idle

inductive Reach (ad : String) (fs0 : FS) : FS → MState → Prop where
  | init : Reach ad fs0 fs0 .idle
  | step {fs : FS} {st : MState} {fs1 : FS} {st1 : MState}
      (hr : Reach ad fs0 fs st) (hs : Step ad fs st fs1 st1) :
      Reach ad fs0 fs1 st1

/-! ### Repeated Load/Unload cycles (backup rotation across runs) -/

/-- One full program cycle around the launched game: Load the profile, let
the child process rewrite the active file to `c` while it runs, then Unload. -/
def runCycle (ad : String) (p : Profile) (c : List Nat) (fs : FS) : FS × Option IOError :=
  match p.LoadFile ad fs with
  | (fs1, some e) => (fs1, some e)
  | (fs1, none) => p.UnloadFile ad (setFS (LoadedProfile ad) (.present c) fs1)

/-- `K` successive cycles; cycle `k` (0-based) ends with the child having
written content `cseq k`. -/
def runCycles (ad : String) (p : Profile) (cseq : Nat → List Nat) :
    Nat → FS → FS × Option IOError
  | 0, fs => (fs, none)
  | K+1, fs =>
    match runCycles ad p cseq K fs with
    | (fs1, some e) => (fs1, some e)
    | (fs1, none) => runCycle ad p (cseq K) fs1

/-- The saved profile content after `j` cycles: the initial saved content
for `j = 0`, else what the child wrote during cycle `j`. -/
def savedAt (s0 : List Nat) (cseq : Nat → List Nat) : Nat → List Nat
  | 0 => s0
  | j+1 => cseq j

/-! ### Concrete fixtures used by witnesses and counterexamples -/

/-- A non-"local" test profile with the default backup count 2. -/
def pAlice : Profile := ⟨"Alice", [], 2, ""⟩

/-- Empty filesystem. -/
def fsEmpty : FS := fun _ => .absent

/-- Active file present, Alice's saved file absent (first-run scenario). -/
def fsLoadFail : FS := fun q => if q = LoadedProfile "A" then .present [7] else .absent

/-- Active file, saved file, and executable all present. -/
def fsHappy : FS := fun q =>
  if q = LoadedProfile "A" then .present [1]
  else if q = Profile.Path "A" pAlice then .present [2]
  else if q = ExecPath then .present []
  else .absent

/-- Like `fsHappy` but backup slot 0 is unstatable, so the rotation inside
the deferred Unload fails. -/
def fsUnloadFail : FS := fun q =>
  if q = LoadedProfile "A" then .present [1]
  else if q = Profile.Path "A" pAlice then .present [2]
  else if q = ExecPath then .present []
  else if q = Profile.getBackup "A" pAlice 0 then .unstatable
  else .absent

/-- Environment for the C3 comparison: both install roots at `D:\\Root`. -/
def envD : String → String := fun _ => "D:\\Root"

/-- Filesystem where a spec candidate exists but the hardcoded `ExecPath`
does not. -/
def fsAltInstall : FS := fun q =>
  if q = joinPath "D:\\Root" "Guild Wars 2\\Gw2-64.exe" then .present [] else .absent

/-- Active and saved file present, nothing else (for cycle witnesses). -/
def fsCycles : FS := fun q =>
  if q = LoadedProfile "A" then .present [1]
  else if q = Profile.Path "A" pAlice then .present [2]
  else .absent

/-- Only the saved file present: no active file before Load. -/
def fsNoActive : FS := fun q =>
  if q = Profile.Path "A" pAlice then .present [2] else .absent

/-- Every path unstatable (stat fails with a non-not-exist error). -/
def fsAllUnstat : FS := fun _ => .unstatable

/-! ### String facts: extensionality, cancellation, last characters

All paths the program touches are built by appending suffixes to a common
directory prefix, so the pairwise-distinctness facts we need reduce to
append cancellation and to the last character of each path: saved profile
files end in `'t'` (".dat"), the undo marker ends in `'k'` (".bak"), and
numbered backups end in a decimal digit. -/

theorem strExt {a b : String} (h : a.data = b.data) : a = b := by
  cases a; cases b; exact congrArg String.mk h

theorem strAppend_left_cancel {a b c : String} (h : a ++ b = a ++ c) : b = c :=
  strExt (List.append_cancel_left (show a.data ++ b.data = a.data ++ c.data from
    congrArg String.data h))

theorem strAppend_right_cancel {a b c : String} (h : a ++ c = b ++ c) : a = b :=
  strExt (List.append_cancel_right (show a.data ++ c.data = b.data ++ c.data from
    congrArg String.data h))

theorem strLast_append (a b : String) (hb : b.data ≠ []) : strLast (a ++ b) = strLast b :=
  List.getLast?_append_of_ne_nil a.data hb

theorem ne_of_strLast {a b : String} (h : strLast a ≠ strLast b) : a ≠ b :=
  fun e => h (e ▸ rfl)

theorem digitChar_toNat (k : Nat) (h : k < 10) : (digitChar k).toNat = 48 + k := by
  interval_cases k <;> rfl

theorem digitChar_inj {m n : Nat} (hm : m < 10) (hn : n < 10)
    (h : digitChar m = digitChar n) : m = n := by
  have := congrArg Char.toNat h
  rw [digitChar_toNat m hm, digitChar_toNat n hn] at this
  omega

theorem digitChar_ne_t (k : Nat) (h : k < 10) : digitChar k ≠ 't' := by
  interval_cases k <;> decide

theorem digitChar_ne_k (k : Nat) (h : k < 10) : digitChar k ≠ 'k' := by
  interval_cases k <;> decide

theorem natDigsF_ne_nil (f n : Nat) (h : n < f) : natDigsF f n ≠ [] := by
  match f with
  | f+1 =>
    simp only [natDigsF]
    split
    · simp
    · simp

theorem natDigsF_getLast (f n : Nat) (h : n < f) :
    (natDigsF f n).getLast? = some (digitChar (n % 10)) := by
  match f with
  | f+1 =>
    simp only [natDigsF]
    split
    · next h10 => simp [Nat.mod_eq_of_lt h10]
    · rw [List.getLast?_append_of_ne_nil _ (by simp)]
      rfl

theorem natDigsF_inj (f1 : Nat) : ∀ f2 m n, m < f1 → n < f2 →
    natDigsF f1 m = natDigsF f2 n → m = n := by
  induction f1 with
  | zero => intro f2 m n hm; omega
  | succ f1 ih =>
    intro f2 m n hm hn heq
    match f2 with
    | f2+1 =>
      simp only [natDigsF] at heq
      by_cases hm10 : m < 10 <;> by_cases hn10 : n < 10 <;>
        simp only [hm10, hn10, if_true, if_false, reduceIte] at heq
      · exact digitChar_inj hm10 hn10 (List.singleton_injective heq)
      · have h2 : n / 10 < f2 :=
          Nat.lt_of_lt_of_le (Nat.div_lt_self (by omega) (by omega)) (by omega)
        rcases hys : natDigsF f2 (n / 10) with _ | ⟨c, cs⟩
        · exact absurd hys (natDigsF_ne_nil f2 (n / 10) h2)
        · rw [hys] at heq
          simp at heq
      · have h1 : m / 10 < f1 :=
          Nat.lt_of_lt_of_le (Nat.div_lt_self (by omega) (by omega)) (by omega)
        rcases hys : natDigsF f1 (m / 10) with _ | ⟨c, cs⟩
        · exact absurd hys (natDigsF_ne_nil f1 (m / 10) h1)
        · rw [hys] at heq
          simp at heq
      · have h1 : m / 10 < f1 :=
          Nat.lt_of_lt_of_le (Nat.div_lt_self (by omega) (by omega)) (by omega)
        have h2 : n / 10 < f2 :=
          Nat.lt_of_lt_of_le (Nat.div_lt_self (by omega) (by omega)) (by omega)
        have := List.append_inj' heq (by rfl)
        have hdiv := ih f2 (m / 10) (n / 10) h1 h2 this.1
        have hmod : m % 10 = n % 10 :=
          digitChar_inj (Nat.mod_lt _ (by omega)) (Nat.mod_lt _ (by omega))
            (List.singleton_injective this.2)
        omega

theorem natRepr_inj {m n : Nat} (h : natRepr m = natRepr n) : m = n :=
  natDigsF_inj (m+1) (n+1) m n (Nat.lt_succ_self m) (Nat.lt_succ_self n)
    (congrArg String.data h)

theorem natRepr_data_ne_nil (n : Nat) : (natRepr n).data ≠ [] :=
  natDigsF_ne_nil (n+1) n (Nat.lt_succ_self n)

theorem strLast_natRepr (n : Nat) : strLast (natRepr n) = some (digitChar (n % 10)) :=
  natDigsF_getLast (n+1) n (Nat.lt_succ_self n)

/-! ### Distinctness of the paths the program touches -/

theorem strData_append_ne_nil (a b : String) (hb : b.data ≠ []) : (a ++ b).data ≠ [] := by
  intro h
  have h2 : a.data ++ b.data = [] := h
  exact hb (List.append_eq_nil.mp h2).2

theorem strLast_dat (s : String) : strLast (s ++ ".dat") = some 't' := by
  rw [strLast_append _ _ (by decide)]; rfl

theorem strLast_bakSuffix (s : String) : strLast (s ++ ".bak") = some 'k' := by
  rw [strLast_append _ _ (by decide)]; rfl

theorem Path_eq (ad : String) (p : Profile) (h : p.path = "") :
    p.Path ad = joinPath (ProfileDir ad) (p.Name ++ ".dat") := by
  simp [Profile.Path, h]

theorem strLast_Path (ad : String) (p : Profile) (h : p.path = "") :
    strLast (p.Path ad) = some 't' := by
  rw [Path_eq ad p h]
  unfold joinPath
  rw [strLast_append _ _ (strData_append_ne_nil p.Name ".dat" (by decide))]
  exact strLast_dat p.Name

theorem strLast_LoadedProfile (ad : String) : strLast (LoadedProfile ad) = some 't' := by
  unfold LoadedProfile joinPath
  rw [strLast_append _ _ (by decide)]
  rfl

theorem intRepr_ofNat (j : Nat) : intRepr (Int.ofNat j) = natRepr j := rfl

theorem strLast_getBackup (ad : String) (p : Profile) (j : Nat) :
    strLast (p.getBackup ad (Int.ofNat j)) = some (digitChar (j % 10)) := by
  unfold Profile.getBackup
  rw [intRepr_ofNat, strLast_append _ _ (natRepr_data_ne_nil j)]
  exact strLast_natRepr j

theorem getBackup_inj (ad : String) (p : Profile) {j k : Nat}
    (h : p.getBackup ad (Int.ofNat j) = p.getBackup ad (Int.ofNat k)) : j = k := by
  unfold Profile.getBackup at h
  rw [intRepr_ofNat, intRepr_ofNat] at h
  exact natRepr_inj (strAppend_left_cancel h)

theorem getBackup_ne_getBackup (ad : String) (p : Profile) {j k : Nat} (h : j ≠ k) :
    p.getBackup ad (Int.ofNat j) ≠ p.getBackup ad (Int.ofNat k) :=
  fun hc => h (getBackup_inj ad p hc)

theorem getBackup_ne_Path (ad : String) (p : Profile) (j : Nat) (h : p.path = "") :
    p.getBackup ad (Int.ofNat j) ≠ p.Path ad :=
  ne_of_strLast (by
    rw [strLast_getBackup, strLast_Path ad p h]
    exact fun hc => digitChar_ne_t _ (Nat.mod_lt _ (by omega)) (Option.some.inj hc))

theorem getBackup_ne_Loaded (ad : String) (p : Profile) (j : Nat) :
    p.getBackup ad (Int.ofNat j) ≠ LoadedProfile ad :=
  ne_of_strLast (by
    rw [strLast_getBackup, strLast_LoadedProfile ad]
    exact fun hc => digitChar_ne_t _ (Nat.mod_lt _ (by omega)) (Option.some.inj hc))

theorem getBackup_ne_bak (ad : String) (p : Profile) (j : Nat) (s : String) :
    p.getBackup ad (Int.ofNat j) ≠ s ++ ".bak" :=
  ne_of_strLast (by
    rw [strLast_getBackup, strLast_bakSuffix]
    exact fun hc => digitChar_ne_k _ (Nat.mod_lt _ (by omega)) (Option.some.inj hc))

theorem Path_ne_bak (ad : String) (p : Profile) (h : p.path = "") (s : String) :
    p.Path ad ≠ s ++ ".bak" :=
  ne_of_strLast (by
    rw [strLast_Path ad p h, strLast_bakSuffix]
    decide)

theorem Loaded_ne_bak (ad s : String) : LoadedProfile ad ≠ s ++ ".bak" :=
  ne_of_strLast (by
    rw [strLast_LoadedProfile ad, strLast_bakSuffix]
    decide)

theorem Path_ne_Loaded (ad : String) (p : Profile) (h : p.path = "")
    (hn : p.Name ≠ "Local") : p.Path ad ≠ LoadedProfile ad := by
  rw [Path_eq ad p h]
  intro hc
  unfold LoadedProfile joinPath at hc
  have h1 : p.Name ++ ".dat" = "Local.dat" := strAppend_left_cancel hc
  have h2 : p.Name ++ ".dat" = "Local" ++ ".dat" := by rw [h1]; decide
  exact hn (strAppend_right_cancel h2)

/-! ### Characterizations of the basic file operations -/

theorem setFS_same (path : String) (v : FileState) (fs : FS) : setFS path v fs path = v := by
  simp [setFS]

theorem setFS_other (path : String) (v : FileState) (fs : FS) (q : String) (h : q ≠ path) :
    setFS path v fs q = fs q := by
  simp [setFS, h]

theorem FileExists_absent {file : String} {fs : FS} (h : fs file = .absent) :
    FileExists file fs = false := by
  simp [FileExists, osStatErr, h, isNotExist]

theorem FileExists_present {file : String} {fs : FS} {c : List Nat}
    (h : fs file = .present c) : FileExists file fs = true := by
  simp [FileExists, osStatErr, h, isNotExist]

theorem FileExists_unstatable {file : String} {fs : FS} (h : fs file = .unstatable) :
    FileExists file fs = true := by
  simp [FileExists, osStatErr, h, isNotExist]

theorem SimpleBackup_absent {file : String} {fs : FS} (h : fs file = .absent) :
    SimpleBackup file fs = (fs, none) := by
  simp [SimpleBackup, FileExists_absent h]

theorem SimpleBackup_present {file : String} {fs : FS} {c : List Nat}
    (h : fs file = .present c) :
    SimpleBackup file fs =
      (setFS (file ++ ".bak") (.present c) (setFS file .absent fs), none) := by
  simp [SimpleBackup, FileExists_present h, osRename, h]

theorem SimpleRestore_absent {file : String} {fs : FS} (h : fs (file ++ ".bak") = .absent) :
    SimpleRestore file fs = (fs, none) := by
  simp [SimpleRestore, FileExists_absent h]

theorem SimpleRestore_present {file : String} {fs : FS} {c : List Nat}
    (h : fs (file ++ ".bak") = .present c) :
    SimpleRestore file fs =
      (setFS file (.present c) (setFS (file ++ ".bak") .absent fs), none) := by
  simp [SimpleRestore, FileExists_present h, osRename, h]

theorem SimpleCopy_ok {src dst : String} {fs : FS} {c : List Nat}
    (hsrc : fs src = .present c) (hdst : fs dst ≠ .unstatable) :
    SimpleCopy src dst fs = (setFS dst (.present c) fs, none) := by
  unfold SimpleCopy
  rw [hsrc]
  rcases hd : fs dst with _ | d | _
  · rfl
  · rfl
  · exact absurd hd hdst

theorem SimpleCopy_src_absent {src dst : String} {fs : FS} (h : fs src = .absent) :
    SimpleCopy src dst fs = (fs, some (.notExist src)) := by
  unfold SimpleCopy
  rw [h]

theorem osRemoveAll_ok {path : String} {fs : FS} (h : fs path ≠ .unstatable) :
    osRemoveAll path fs = (setFS path .absent fs, none) := by
  unfold osRemoveAll
  rcases hd : fs path with _ | d | _
  · rfl
  · rfl
  · exact absurd hd h

theorem osRename_ok {oldp newp : String} {fs : FS} {c : List Nat}
    (h : fs oldp = .present c) :
    osRename oldp newp fs = (setFS newp (.present c) (setFS oldp .absent fs), none) := by
  unfold osRename
  rw [h]

/-! ### Characterization of LoadFile -/

/-- Successful `LoadFile`: the active file is backed up to the `.bak` marker
(when it existed) and the saved profile bytes land in the active position. -/
theorem LoadFile_spec (ad : String) (p : Profile) (fs : FS) (s : List Nat)
    (hpath : p.path = "") (hname : p.Name ≠ "Local")
    (hsav : fs (p.Path ad) = .present s)
    (hact : fs (LoadedProfile ad) ≠ .unstatable) :
    ∃ fs1, p.LoadFile ad fs = (fs1, none) ∧
      fs1 (LoadedProfile ad) = .present s ∧
      fs1 (p.Path ad) = .present s ∧
      fs1 (LoadedProfile ad ++ ".bak") =
        (match fs (LoadedProfile ad) with
         | .present a => .present a
         | _ => fs (LoadedProfile ad ++ ".bak")) ∧
      (∀ q, q ≠ LoadedProfile ad → q ≠ LoadedProfile ad ++ ".bak" → fs1 q = fs q) := by
  have hPL := Path_ne_Loaded ad p hpath hname
  have hPB := Path_ne_bak ad p hpath (LoadedProfile ad)
  have hLB := Loaded_ne_bak ad (LoadedProfile ad)
  rcases ha : fs (LoadedProfile ad) with _ | a | _
  · have h1 : p.LoadFile ad fs = SimpleCopy (p.Path ad) (LoadedProfile ad) fs := by
      unfold Profile.LoadFile
      rw [SimpleBackup_absent ha]
    have hdst : fs (LoadedProfile ad) ≠ .unstatable := by rw [ha]; intro hc; cases hc
    rw [h1, SimpleCopy_ok hsav hdst]
    refine ⟨_, rfl, ?_, ?_, ?_, ?_⟩
    · rw [setFS_same]
    · rw [setFS_other _ _ _ _ hPL, hsav]
    · rw [setFS_other _ _ _ _ (Ne.symm hLB)]
    · intro q hq1 _
      rw [setFS_other _ _ _ _ hq1]
  · have h1 : p.LoadFile ad fs = SimpleCopy (p.Path ad) (LoadedProfile ad)
        (setFS (LoadedProfile ad ++ ".bak") (.present a)
          (setFS (LoadedProfile ad) .absent fs)) := by
      unfold Profile.LoadFile
      rw [SimpleBackup_present ha]
    have hsav1 : setFS (LoadedProfile ad ++ ".bak") (.present a)
        (setFS (LoadedProfile ad) .absent fs) (p.Path ad) = .present s := by
      rw [setFS_other _ _ _ _ hPB, setFS_other _ _ _ _ hPL, hsav]
    have hdst : setFS (LoadedProfile ad ++ ".bak") (.present a)
        (setFS (LoadedProfile ad) .absent fs) (LoadedProfile ad) ≠ .unstatable := by
      rw [setFS_other _ _ _ _ hLB, setFS_same]
      intro hc; cases hc
    rw [h1, SimpleCopy_ok hsav1 hdst]
    refine ⟨_, rfl, ?_, ?_, ?_, ?_⟩
    · rw [setFS_same]
    · rw [setFS_other _ _ _ _ hPL]
      exact hsav1
    · rw [setFS_other _ _ _ _ (Ne.symm hLB), setFS_same]
    · intro q hq1 hq2
      rw [setFS_other _ _ _ _ hq1, setFS_other _ _ _ _ hq2, setFS_other _ _ _ _ hq1]
  · exact absurd ha hact

/-! ### Characterization of the rotation loop and RollBackups -/

/-- The descending rename loop shifts every backup slot `1..k` to the value
the previous slot held, clears slot 0 (when the loop ran at all), and leaves
every other path untouched. -/
theorem rollLoop_spec (ad : String) (p : Profile) (k : Nat) : ∀ fs : FS,
    fs (p.getBackup ad (Int.ofNat k)) = .absent →
    (∀ j : Nat, j < k → fs (p.getBackup ad (Int.ofNat j)) ≠ .unstatable) →
    ∃ fs1, rollLoop ad p k fs = (fs1, none) ∧
      (∀ j : Nat, 1 ≤ j → j ≤ k →
        fs1 (p.getBackup ad (Int.ofNat j)) = fs (p.getBackup ad (Int.ofNat (j-1)))) ∧
      (1 ≤ k → fs1 (p.getBackup ad (Int.ofNat 0)) = .absent) ∧
      (k = 0 → fs1 = fs) ∧
      (∀ q, (∀ j : Nat, j ≤ k → q ≠ p.getBackup ad (Int.ofNat j)) → fs1 q = fs q) := by
  induction k with
  | zero =>
    intro fs _ _
    refine ⟨fs, rfl, ?_, ?_, fun _ => rfl, fun q _ => rfl⟩
    · intro j h1 h2; omega
    · intro h; omega
  | succ k ih =>
    intro fs hk hsl
    rcases hcase : fs (p.getBackup ad (Int.ofNat k)) with _ | c | _
    · have hstep : rollLoop ad p (k+1) fs = rollLoop ad p k fs := by
        simp only [rollLoop]
        rw [FileExists_absent hcase]
        exact if_neg (by decide)
      obtain ⟨fs1, hrun, hshift, hzero, hid, hframe⟩ :=
        ih fs hcase (fun j hj => hsl j (by omega))
      refine ⟨fs1, by rw [hstep, hrun], ?_, ?_, by omega, ?_⟩
      · intro j h1 h2
        rcases Nat.lt_or_ge j (k+1) with h | h
        · exact hshift j h1 (by omega)
        · have hj : j = k+1 := by omega
          subst hj
          have hfr : fs1 (p.getBackup ad (Int.ofNat (k+1))) =
              fs (p.getBackup ad (Int.ofNat (k+1))) :=
            hframe _ (fun m hm => getBackup_ne_getBackup ad p (by omega))
          rw [hfr, hk]
          simp only [Nat.add_sub_cancel]
          rw [hcase]
      · intro _
        rcases Nat.eq_zero_or_pos k with h0 | hpos
        · subst h0
          rw [hid rfl]
          exact hcase
        · exact hzero hpos
      · intro q hq
        exact hframe q (fun m hm => hq m (by omega))
    · have hne_k1 : p.getBackup ad (Int.ofNat k) ≠ p.getBackup ad (Int.ofNat (k+1)) :=
        getBackup_ne_getBackup ad p (by omega)
      have hstep : rollLoop ad p (k+1) fs = rollLoop ad p k
          (setFS (p.getBackup ad (Int.ofNat (k+1))) (.present c)
            (setFS (p.getBackup ad (Int.ofNat k)) .absent fs)) := by
        simp only [rollLoop]
        rw [FileExists_present hcase, if_pos rfl, osRename_ok hcase]
      have hpre1 : setFS (p.getBackup ad (Int.ofNat (k+1))) (.present c)
          (setFS (p.getBackup ad (Int.ofNat k)) .absent fs)
          (p.getBackup ad (Int.ofNat k)) = .absent := by
        rw [setFS_other _ _ _ _ hne_k1, setFS_same]
      have hpre2 : ∀ j : Nat, j < k →
          setFS (p.getBackup ad (Int.ofNat (k+1))) (.present c)
            (setFS (p.getBackup ad (Int.ofNat k)) .absent fs)
            (p.getBackup ad (Int.ofNat j)) ≠ .unstatable := by
        intro j hj
        rw [setFS_other _ _ _ _ (getBackup_ne_getBackup ad p (by omega)),
          setFS_other _ _ _ _ (getBackup_ne_getBackup ad p (by omega))]
        exact hsl j (by omega)
      obtain ⟨fs1, hrun, hshift, hzero, hid, hframe⟩ := ih _ hpre1 hpre2
      refine ⟨fs1, by rw [hstep, hrun], ?_, ?_, by omega, ?_⟩
      · intro j h1 h2
        rcases Nat.lt_or_ge j (k+1) with h | h
        · rw [hshift j h1 (by omega)]
          rw [setFS_other _ _ _ _ (getBackup_ne_getBackup ad p (by omega)),
            setFS_other _ _ _ _ (getBackup_ne_getBackup ad p (by omega))]
        · have hj : j = k+1 := by omega
          subst hj
          have hfr := hframe (p.getBackup ad (Int.ofNat (k+1)))
            (fun m hm => getBackup_ne_getBackup ad p (by omega))
          rw [hfr, setFS_same]
          simp only [Nat.add_sub_cancel]
          rw [hcase]
      · intro _
        rcases Nat.eq_zero_or_pos k with h0 | hpos
        · subst h0
          rw [hid rfl]
          rw [setFS_other _ _ _ _ (getBackup_ne_getBackup ad p (by omega)), setFS_same]
        · exact hzero hpos
      · intro q hq
        rw [hframe q (fun m hm => hq m (by omega))]
        rw [setFS_other _ _ _ _ (hq (k+1) (by omega)), setFS_other _ _ _ _ (hq k (by omega))]
    · exact absurd hcase (hsl k (by omega))

/-- Successful `RollBackups` for `Preserve ≥ 1`: slot 0 receives the saved
file's bytes, slot `j` receives what slot `j-1` held, the saved file is
renamed away, and nothing else changes. -/
theorem RollBackups_spec (ad : String) (p : Profile) (fs : FS) (s : List Nat)
    (hpath : p.path = "") (hpres : 1 ≤ p.Preserve)
    (hsav : fs (p.Path ad) = .present s)
    (hslots : ∀ j : Nat, j < p.Preserve.toNat →
      fs (p.getBackup ad (Int.ofNat j)) ≠ .unstatable) :
    ∃ fs1, p.RollBackups ad fs = (fs1, none) ∧
      fs1 (p.getBackup ad (Int.ofNat 0)) = .present s ∧
      (∀ j : Nat, 1 ≤ j → j < p.Preserve.toNat →
        fs1 (p.getBackup ad (Int.ofNat j)) = fs (p.getBackup ad (Int.ofNat (j-1)))) ∧
      fs1 (p.Path ad) = .absent ∧
      (∀ q, q ≠ p.Path ad →
        (∀ j : Nat, j < p.Preserve.toNat → q ≠ p.getBackup ad (Int.ofNat j)) →
        fs1 q = fs q) := by
  have hn1 : 1 ≤ p.Preserve.toNat := by omega
  have hofnat : p.Preserve - 1 = Int.ofNat (p.Preserve.toNat - 1) := by
    simp only [Int.ofNat_eq_coe]
    omega
  have htonat : (p.Preserve - 1).toNat = p.Preserve.toNat - 1 := by omega
  have hnot : ¬ (p.Preserve < 1) := by omega
  have hrm : osRemoveAll (p.getBackup ad (p.Preserve - 1)) fs =
      (setFS (p.getBackup ad (Int.ofNat (p.Preserve.toNat - 1))) .absent fs, none) := by
    rw [hofnat]
    exact osRemoveAll_ok (hslots (p.Preserve.toNat - 1) (by omega))
  have hpre1 : setFS (p.getBackup ad (Int.ofNat (p.Preserve.toNat - 1))) .absent fs
      (p.getBackup ad (Int.ofNat (p.Preserve.toNat - 1))) = .absent := setFS_same _ _ _
  have hpre2 : ∀ j : Nat, j < p.Preserve.toNat - 1 →
      setFS (p.getBackup ad (Int.ofNat (p.Preserve.toNat - 1))) .absent fs
        (p.getBackup ad (Int.ofNat j)) ≠ .unstatable := by
    intro j hj
    rw [setFS_other _ _ _ _ (getBackup_ne_getBackup ad p (by omega))]
    exact hslots j (by omega)
  obtain ⟨fs2, hrun, hshift, hzero, hid, hframe⟩ :=
    rollLoop_spec ad p (p.Preserve.toNat - 1) _ hpre1 hpre2
  have hPs : fs2 (p.Path ad) = .present s := by
    rw [hframe _ (fun m hm => Ne.symm (getBackup_ne_Path ad p m hpath))]
    rw [setFS_other _ _ _ _ (Ne.symm (getBackup_ne_Path ad p _ hpath))]
    exact hsav
  have hzero0 : p.getBackup ad (0 : Int) = p.getBackup ad (Int.ofNat 0) := rfl
  have e1 : p.RollBackups ad fs =
      (match rollLoop ad p (p.Preserve - 1).toNat
          (setFS (p.getBackup ad (Int.ofNat (p.Preserve.toNat - 1))) .absent fs) with
        | (fs2, some e) => (fs2, some e)
        | (fs2, none) => osRename (p.Path ad) (p.getBackup ad 0) fs2) := by
    unfold Profile.RollBackups
    rw [if_neg hnot, hrm]
  have e2 : p.RollBackups ad fs = osRename (p.Path ad) (p.getBackup ad 0) fs2 := by
    rw [e1, htonat, hrun]
  have hcall : p.RollBackups ad fs =
      (setFS (p.getBackup ad (Int.ofNat 0)) (.present s) (setFS (p.Path ad) .absent fs2),
        none) := by
    rw [e2, hzero0, osRename_ok hPs]
  refine ⟨_, hcall, ?_, ?_, ?_, ?_⟩
  · exact setFS_same _ _ _
  · intro j h1 h2
    rw [setFS_other _ _ _ _ (getBackup_ne_getBackup ad p (by omega)),
      setFS_other _ _ _ _ (getBackup_ne_Path ad p j hpath)]
    rw [hshift j h1 (by omega)]
    rw [setFS_other _ _ _ _ (getBackup_ne_getBackup ad p (by omega))]
  · rw [setFS_other _ _ _ _ (Ne.symm (getBackup_ne_Path ad p 0 hpath)), setFS_same]
  · intro q hq hqs
    rw [setFS_other _ _ _ _ (hqs 0 (by omega)), setFS_other _ _ _ _ hq]
    rw [hframe q (fun m hm => hqs m (by omega))]
    rw [setFS_other _ _ _ _ (hqs (p.Preserve.toNat - 1) (by omega))]


/-! ### Characterization of UnloadFile -/

/-- Successful `UnloadFile` with rotation (`Preserve ≥ 1`): backups rotate,
the active bytes are persisted to the saved path, and the `.bak` marker (if
present) is renamed back over the active path. -/
theorem UnloadFile_spec (ad : String) (p : Profile) (fs : FS) (s c : List Nat)
    (hpath : p.path = "") (hname : p.Name ≠ "Local") (hpres : 1 ≤ p.Preserve)
    (hsav : fs (p.Path ad) = .present s)
    (hact : fs (LoadedProfile ad) = .present c)
    (hmkr : fs (LoadedProfile ad ++ ".bak") ≠ .unstatable)
    (hslots : ∀ j : Nat, j < p.Preserve.toNat →
      fs (p.getBackup ad (Int.ofNat j)) ≠ .unstatable) :
    ∃ fs1, p.UnloadFile ad fs = (fs1, none) ∧
      fs1 (p.Path ad) = .present c ∧
      fs1 (p.getBackup ad (Int.ofNat 0)) = .present s ∧
      (∀ j : Nat, 1 ≤ j → j < p.Preserve.toNat →
        fs1 (p.getBackup ad (Int.ofNat j)) = fs (p.getBackup ad (Int.ofNat (j-1)))) ∧
      fs1 (LoadedProfile ad ++ ".bak") = .absent ∧
      fs1 (LoadedProfile ad) =
        (match fs (LoadedProfile ad ++ ".bak") with
         | .present m => .present m
         | _ => .present c) ∧
      (∀ q, q ≠ p.Path ad → q ≠ LoadedProfile ad → q ≠ LoadedProfile ad ++ ".bak" →
        (∀ j : Nat, j < p.Preserve.toNat → q ≠ p.getBackup ad (Int.ofNat j)) →
        fs1 q = fs q) := by
  have hLP : LoadedProfile ad ≠ p.Path ad := Ne.symm (Path_ne_Loaded ad p hpath hname)
  have hLS : ∀ j : Nat, LoadedProfile ad ≠ p.getBackup ad (Int.ofNat j) :=
    fun j => Ne.symm (getBackup_ne_Loaded ad p j)
  have hBP : LoadedProfile ad ++ ".bak" ≠ p.Path ad :=
    Ne.symm (Path_ne_bak ad p hpath (LoadedProfile ad))
  have hBS : ∀ j : Nat, LoadedProfile ad ++ ".bak" ≠ p.getBackup ad (Int.ofNat j) :=
    fun j => Ne.symm (getBackup_ne_bak ad p j (LoadedProfile ad))
  have hBL : LoadedProfile ad ++ ".bak" ≠ LoadedProfile ad :=
    Ne.symm (Loaded_ne_bak ad (LoadedProfile ad))
  obtain ⟨fs2, hrun, hslot0, hshift, hPathAbs, hframe⟩ :=
    RollBackups_spec ad p fs s hpath hpres hsav hslots
  have hact2 : fs2 (LoadedProfile ad) = .present c := by
    rw [hframe _ hLP (fun j _ => hLS j)]
    exact hact
  have hdst2 : fs2 (p.Path ad) ≠ .unstatable := by
    rw [hPathAbs]
    intro hx; cases hx
  have ecopy : SimpleCopy (LoadedProfile ad) (p.Path ad) fs2 =
      (setFS (p.Path ad) (.present c) fs2, none) := SimpleCopy_ok hact2 hdst2
  have u0 : p.UnloadFile ad fs =
      (match SimpleCopy (LoadedProfile ad) (p.Path ad) fs2 with
        | (a, some e) => (a, some e)
        | (a, none) => SimpleRestore (LoadedProfile ad) a) := by
    unfold Profile.UnloadFile
    rw [hrun]
  have u1 : p.UnloadFile ad fs =
      SimpleRestore (LoadedProfile ad) (setFS (p.Path ad) (.present c) fs2) := by
    rw [u0, ecopy]
  have hmkr3 : setFS (p.Path ad) (.present c) fs2 (LoadedProfile ad ++ ".bak") =
      fs (LoadedProfile ad ++ ".bak") := by
    rw [setFS_other _ _ _ _ hBP]
    exact hframe _ hBP (fun j _ => hBS j)
  rcases hm : fs (LoadedProfile ad ++ ".bak") with _ | m | _
  · have u2 : p.UnloadFile ad fs = (setFS (p.Path ad) (.present c) fs2, none) := by
      rw [u1, SimpleRestore_absent (by rw [hmkr3, hm])]
    refine ⟨_, u2, ?_, ?_, ?_, ?_, ?_, ?_⟩
    · exact setFS_same _ _ _
    · rw [setFS_other _ _ _ _ (getBackup_ne_Path ad p 0 hpath)]
      exact hslot0
    · intro j h1 h2
      rw [setFS_other _ _ _ _ (getBackup_ne_Path ad p j hpath)]
      exact hshift j h1 h2
    · rw [hmkr3, hm]
    · rw [setFS_other _ _ _ _ hLP]
      exact hact2
    · intro q hq1 _ _ hq4
      rw [setFS_other _ _ _ _ hq1]
      exact hframe q hq1 hq4
  · have u2 : p.UnloadFile ad fs =
        (setFS (LoadedProfile ad) (.present m)
          (setFS (LoadedProfile ad ++ ".bak") .absent
            (setFS (p.Path ad) (.present c) fs2)), none) := by
      rw [u1, SimpleRestore_present (by rw [hmkr3, hm])]
    refine ⟨_, u2, ?_, ?_, ?_, ?_, ?_, ?_⟩
    · rw [setFS_other _ _ _ _ (Ne.symm hLP), setFS_other _ _ _ _ (Ne.symm hBP),
        setFS_same]
    · rw [setFS_other _ _ _ _ (Ne.symm (hLS 0)), setFS_other _ _ _ _ (Ne.symm (hBS 0)),
        setFS_other _ _ _ _ (getBackup_ne_Path ad p 0 hpath)]
      exact hslot0
    · intro j h1 h2
      rw [setFS_other _ _ _ _ (Ne.symm (hLS j)), setFS_other _ _ _ _ (Ne.symm (hBS j)),
        setFS_other _ _ _ _ (getBackup_ne_Path ad p j hpath)]
      exact hshift j h1 h2
    · rw [setFS_other _ _ _ _ hBL, setFS_same]
    · exact setFS_same _ _ _
    · intro q hq1 hq2 hq3 hq4
      rw [setFS_other _ _ _ _ hq2, setFS_other _ _ _ _ hq3, setFS_other _ _ _ _ hq1]
      exact hframe q hq1 hq4
  · exact absurd hm hmkr

/-- Successful `UnloadFile` with rotation disabled (`Preserve < 1`):
`RollBackups` is a no-op; the active bytes are persisted to the saved path
and the `.bak` marker (if present) is renamed back over the active path. -/
theorem UnloadFile_spec0 (ad : String) (p : Profile) (fs : FS) (c : List Nat)
    (hpath : p.path = "") (hname : p.Name ≠ "Local") (hpres : p.Preserve < 1)
    (hsavU : fs (p.Path ad) ≠ .unstatable)
    (hact : fs (LoadedProfile ad) = .present c)
    (hmkr : fs (LoadedProfile ad ++ ".bak") ≠ .unstatable) :
    ∃ fs1, p.UnloadFile ad fs = (fs1, none) ∧
      fs1 (p.Path ad) = .present c ∧
      fs1 (LoadedProfile ad ++ ".bak") = .absent ∧
      fs1 (LoadedProfile ad) =
        (match fs (LoadedProfile ad ++ ".bak") with
         | .present m => .present m
         | _ => .present c) ∧
      (∀ q, q ≠ p.Path ad → q ≠ LoadedProfile ad → q ≠ LoadedProfile ad ++ ".bak" →
        fs1 q = fs q) := by
  have hLP : LoadedProfile ad ≠ p.Path ad := Ne.symm (Path_ne_Loaded ad p hpath hname)
  have hBP : LoadedProfile ad ++ ".bak" ≠ p.Path ad :=
    Ne.symm (Path_ne_bak ad p hpath (LoadedProfile ad))
  have hBL : LoadedProfile ad ++ ".bak" ≠ LoadedProfile ad :=
    Ne.symm (Loaded_ne_bak ad (LoadedProfile ad))
  have hroll : p.RollBackups ad fs = (fs, none) := by
    unfold Profile.RollBackups
    rw [if_pos hpres]
  have ecopy : SimpleCopy (LoadedProfile ad) (p.Path ad) fs =
      (setFS (p.Path ad) (.present c) fs, none) := SimpleCopy_ok hact hsavU
  have u0 : p.UnloadFile ad fs =
      (match SimpleCopy (LoadedProfile ad) (p.Path ad) fs with
        | (a, some e) => (a, some e)
        | (a, none) => SimpleRestore (LoadedProfile ad) a) := by
    unfold Profile.UnloadFile
    rw [hroll]
  have u1 : p.UnloadFile ad fs =
      SimpleRestore (LoadedProfile ad) (setFS (p.Path ad) (.present c) fs) := by
    rw [u0, ecopy]
  have hmkr3 : setFS (p.Path ad) (.present c) fs (LoadedProfile ad ++ ".bak") =
      fs (LoadedProfile ad ++ ".bak") := setFS_other _ _ _ _ hBP
  rcases hm : fs (LoadedProfile ad ++ ".bak") with _ | m | _
  · have u2 : p.UnloadFile ad fs = (setFS (p.Path ad) (.present c) fs, none) := by
      rw [u1, SimpleRestore_absent (by rw [hmkr3, hm])]
    refine ⟨_, u2, setFS_same _ _ _, ?_, ?_, ?_⟩
    · rw [hmkr3, hm]
    · rw [setFS_other _ _ _ _ hLP]
      exact hact
    · intro q hq1 _ _
      exact setFS_other _ _ _ _ hq1
  · have u2 : p.UnloadFile ad fs =
        (setFS (LoadedProfile ad) (.present m)
          (setFS (LoadedProfile ad ++ ".bak") .absent
            (setFS (p.Path ad) (.present c) fs)), none) := by
      rw [u1, SimpleRestore_present (by rw [hmkr3, hm])]
    refine ⟨_, u2, ?_, ?_, ?_, ?_⟩
    · rw [setFS_other _ _ _ _ (Ne.symm hLP), setFS_other _ _ _ _ (Ne.symm hBP),
        setFS_same]
    · rw [setFS_other _ _ _ _ hBL, setFS_same]
    · exact setFS_same _ _ _
    · intro q hq1 hq2 hq3
      rw [setFS_other _ _ _ _ hq2, setFS_other _ _ _ _ hq3, setFS_other _ _ _ _ hq1]
  · exact absurd hm hmkr


/-! ### Write footprints (hold whether or not the operation succeeds) -/

theorem osRename_footprint (oldp newp : String) (fs : FS) (q : String)
    (h1 : q ≠ oldp) (h2 : q ≠ newp) : ((osRename oldp newp fs).1) q = fs q := by
  unfold osRename
  rcases fs oldp with _ | c | _
  · rfl
  · simp only
    rw [setFS_other _ _ _ _ h2, setFS_other _ _ _ _ h1]
  · rfl

theorem osRemoveAll_footprint (path : String) (fs : FS) (q : String)
    (h : q ≠ path) : ((osRemoveAll path fs).1) q = fs q := by
  unfold osRemoveAll
  rcases fs path with _ | c | _
  · simp only
    rw [setFS_other _ _ _ _ h]
  · simp only
    rw [setFS_other _ _ _ _ h]
  · rfl

theorem SimpleCopy_footprint (src dst : String) (fs : FS) (q : String)
    (h : q ≠ dst) : ((SimpleCopy src dst fs).1) q = fs q := by
  unfold SimpleCopy
  rcases fs src with _ | c | _
  · rfl
  · rcases fs dst with _ | d | _ <;> simp only <;> rw [setFS_other _ _ _ _ h]
  · rfl

theorem SimpleBackup_footprint (file : String) (fs : FS) (q : String)
    (h1 : q ≠ file) (h2 : q ≠ file ++ ".bak") : ((SimpleBackup file fs).1) q = fs q := by
  unfold SimpleBackup
  split
  · exact osRename_footprint file (file ++ ".bak") fs q h1 h2
  · rfl

theorem SimpleRestore_footprint (file : String) (fs : FS) (q : String)
    (h1 : q ≠ file) (h2 : q ≠ file ++ ".bak") : ((SimpleRestore file fs).1) q = fs q := by
  unfold SimpleRestore
  split
  · exact osRename_footprint (file ++ ".bak") file fs q h2 h1
  · rfl

theorem rollLoop_footprint (ad : String) (p : Profile) (k : Nat) : ∀ (fs : FS) (q : String),
    (∀ j : Nat, q ≠ p.getBackup ad (Int.ofNat j)) → ((rollLoop ad p k fs).1) q = fs q := by
  induction k with
  | zero => intro fs q _; rfl
  | succ k ih =>
    intro fs q hq
    rcases hfe : FileExists (p.getBackup ad (Int.ofNat k)) fs with _ | _
    · have hstep : rollLoop ad p (k+1) fs = rollLoop ad p k fs := by
        simp only [rollLoop]
        rw [hfe]
        exact if_neg (by decide)
      rw [hstep]
      exact ih fs q hq
    · rcases hr : osRename (p.getBackup ad (Int.ofNat k)) (p.getBackup ad (Int.ofNat (k+1))) fs
        with ⟨fsr, er⟩
      have hfsr : fsr q = fs q := by
        have := osRename_footprint (p.getBackup ad (Int.ofNat k))
          (p.getBackup ad (Int.ofNat (k+1))) fs q (hq k) (hq (k+1))
        rw [hr] at this
        exact this
      rcases er with _ | e
      · have hstep : rollLoop ad p (k+1) fs = rollLoop ad p k fsr := by
          simp only [rollLoop]
          rw [hfe, if_pos rfl, hr]
        rw [hstep, ih fsr q hq, hfsr]
      · have hstep : rollLoop ad p (k+1) fs = (fsr, some e) := by
          simp only [rollLoop]
          rw [hfe, if_pos rfl, hr]
        rw [hstep]
        exact hfsr

theorem RollBackups_footprint (ad : String) (p : Profile) (fs : FS) (q : String)
    (h1 : q ≠ p.Path ad)
    (hs : ∀ j : Nat, q ≠ p.getBackup ad (Int.ofNat j)) :
    ((p.RollBackups ad fs).1) q = fs q := by
  unfold Profile.RollBackups
  split
  · rfl
  · next hge =>
    have hofnat : p.Preserve - 1 = Int.ofNat ((p.Preserve - 1).toNat) := by
      simp only [Int.ofNat_eq_coe]
      omega
    rcases hrm : osRemoveAll (p.getBackup ad (p.Preserve - 1)) fs with ⟨fsA, eA⟩
    have hfsA : fsA q = fs q := by
      have := osRemoveAll_footprint (p.getBackup ad (p.Preserve - 1)) fs q
        (by rw [hofnat]; exact hs _)
      rw [hrm] at this
      exact this
    rcases eA with _ | e
    · simp only
      rcases hrl : rollLoop ad p (p.Preserve - 1).toNat fsA with ⟨fsB, eB⟩
      have hfsB : fsB q = fsA q := by
        have := rollLoop_footprint ad p (p.Preserve - 1).toNat fsA q hs
        rw [hrl] at this
        exact this
      rcases eB with _ | e
      · simp only
        have := osRename_footprint (p.Path ad) (p.getBackup ad 0) fsB q h1 (hs 0)
        rw [this, hfsB, hfsA]
      · simp only
        rw [hfsB, hfsA]
    · simp only
      exact hfsA

theorem LoadFile_footprint (ad : String) (p : Profile) (fs : FS) (q : String)
    (h2 : q ≠ LoadedProfile ad) (h3 : q ≠ LoadedProfile ad ++ ".bak") :
    ((p.LoadFile ad fs).1) q = fs q := by
  unfold Profile.LoadFile
  rcases hb : SimpleBackup (LoadedProfile ad) fs with ⟨fsA, eA⟩
  have hfsA : fsA q = fs q := by
    have := SimpleBackup_footprint (LoadedProfile ad) fs q h2 h3
    rw [hb] at this
    exact this
  rcases eA with _ | e
  · simp only
    have := SimpleCopy_footprint (p.Path ad) (LoadedProfile ad) fsA q h2
    rw [this, hfsA]
  · simp only
    exact hfsA

theorem UnloadFile_footprint (ad : String) (p : Profile) (fs : FS) (q : String)
    (h1 : q ≠ p.Path ad) (h2 : q ≠ LoadedProfile ad)
    (h3 : q ≠ LoadedProfile ad ++ ".bak")
    (hs : ∀ j : Nat, q ≠ p.getBackup ad (Int.ofNat j)) :
    ((p.UnloadFile ad fs).1) q = fs q := by
  unfold Profile.UnloadFile
  rcases hr : p.RollBackups ad fs with ⟨fsA, eA⟩
  have hfsA : fsA q = fs q := by
    have := RollBackups_footprint ad p fs q h1 hs
    rw [hr] at this
    exact this
  rcases eA with _ | e
  · simp only
    rcases hc : SimpleCopy (LoadedProfile ad) (p.Path ad) fsA with ⟨fsB, eB⟩
    have hfsB : fsB q = fsA q := by
      have := SimpleCopy_footprint (LoadedProfile ad) (p.Path ad) fsA q h1
      rw [hc] at this
      exact this
    rcases eB with _ | e
    · simp only
      have := SimpleRestore_footprint (LoadedProfile ad) fsB q h2 h3
      rw [this, hfsB, hfsA]
    · simp only
      rw [hfsB, hfsA]
  · simp only
    exact hfsA


/-! ### Success inversion for LoadFile / UnloadFile -/

theorem SimpleBackup_unstatable {file : String} {fs : FS} (h : fs file = .unstatable) :
    SimpleBackup file fs = (fs, some (.ioError file)) := by
  unfold SimpleBackup
  rw [FileExists_unstatable h, if_pos rfl]
  unfold osRename
  rw [h]

theorem SimpleRestore_unstatable {file : String} {fs : FS}
    (h : fs (file ++ ".bak") = .unstatable) :
    SimpleRestore file fs = (fs, some (.ioError (file ++ ".bak"))) := by
  unfold SimpleRestore
  rw [FileExists_unstatable h, if_pos rfl]
  unfold osRename
  rw [h]

/-- A successful `LoadFile` leaves the `.bak` marker holding the previous
active file when one existed, and leaves the marker untouched otherwise. -/
theorem LoadFile_inv (ad : String) (p : Profile) (fs fs1 : FS)
    (hpath : p.path = "") (hname : p.Name ≠ "Local")
    (h : p.LoadFile ad fs = (fs1, none)) :
    (FileExists (LoadedProfile ad) fs = true →
      ∃ m, fs1 (LoadedProfile ad ++ ".bak") = .present m) ∧
    (FileExists (LoadedProfile ad) fs = false →
      fs1 (LoadedProfile ad ++ ".bak") = fs (LoadedProfile ad ++ ".bak")) := by
  have hLB := Loaded_ne_bak ad (LoadedProfile ad)
  rcases ha : fs (LoadedProfile ad) with _ | a | _
  · have hb : p.LoadFile ad fs = SimpleCopy (p.Path ad) (LoadedProfile ad) fs := by
      unfold Profile.LoadFile
      rw [SimpleBackup_absent ha]
    rw [hb] at h
    constructor
    · intro hfe
      rw [FileExists_absent ha] at hfe
      cases hfe
    · intro _
      have hfp := SimpleCopy_footprint (p.Path ad) (LoadedProfile ad) fs
        (LoadedProfile ad ++ ".bak") (Ne.symm hLB)
      rw [h] at hfp
      exact hfp
  · have hb : p.LoadFile ad fs = SimpleCopy (p.Path ad) (LoadedProfile ad)
        (setFS (LoadedProfile ad ++ ".bak") (.present a)
          (setFS (LoadedProfile ad) .absent fs)) := by
      unfold Profile.LoadFile
      rw [SimpleBackup_present ha]
    rw [hb] at h
    constructor
    · intro _
      refine ⟨a, ?_⟩
      have hfp := SimpleCopy_footprint (p.Path ad) (LoadedProfile ad)
        (setFS (LoadedProfile ad ++ ".bak") (.present a)
          (setFS (LoadedProfile ad) .absent fs))
        (LoadedProfile ad ++ ".bak") (Ne.symm hLB)
      rw [h] at hfp
      exact hfp.trans (setFS_same _ _ _)
    · intro hfe
      rw [FileExists_present ha] at hfe
      cases hfe
  · have hb : p.LoadFile ad fs = (fs, some (.ioError (LoadedProfile ad))) := by
      unfold Profile.LoadFile
      rw [SimpleBackup_unstatable ha]
    rw [hb] at h
    simp at h

/-- A successful `UnloadFile` always ends with the `.bak` marker absent
(the restore step either renamed it back or found it absent). -/
theorem UnloadFile_marker (ad : String) (p : Profile) (fs fs1 : FS)
    (h : p.UnloadFile ad fs = (fs1, none)) :
    fs1 (LoadedProfile ad ++ ".bak") = .absent := by
  rcases hr : p.RollBackups ad fs with ⟨fsA, eA⟩
  rcases eA with _ | e
  · rcases hc : SimpleCopy (LoadedProfile ad) (p.Path ad) fsA with ⟨fsB, eB⟩
    rcases eB with _ | e
    · have u0 : p.UnloadFile ad fs =
          (match SimpleCopy (LoadedProfile ad) (p.Path ad) fsA with
            | (a, some e) => (a, some e)
            | (a, none) => SimpleRestore (LoadedProfile ad) a) := by
        unfold Profile.UnloadFile
        rw [hr]
      have u1 : p.UnloadFile ad fs = SimpleRestore (LoadedProfile ad) fsB := by
        rw [u0, hc]
      rw [u1] at h
      rcases hm : fsB (LoadedProfile ad ++ ".bak") with _ | m | _
      · rw [SimpleRestore_absent hm] at h
        injection h with h1 _
        rw [← h1]
        exact hm
      · rw [SimpleRestore_present hm] at h
        injection h with h1 _
        rw [← h1]
        rw [setFS_other _ _ _ _ (Ne.symm (Loaded_ne_bak ad (LoadedProfile ad))), setFS_same]
      · rw [SimpleRestore_unstatable hm] at h
        simp at h
    · have u1 : p.UnloadFile ad fs = (fsB, some e) := by
        have u0 : p.UnloadFile ad fs =
            (match SimpleCopy (LoadedProfile ad) (p.Path ad) fsA with
              | (a, some e) => (a, some e)
              | (a, none) => SimpleRestore (LoadedProfile ad) a) := by
          unfold Profile.UnloadFile
          rw [hr]
        rw [u0, hc]
      rw [u1] at h
      simp at h
  · have u1 : p.UnloadFile ad fs = (fsA, some e) := by
      unfold Profile.UnloadFile
      rw [hr]
    rw [u1] at h
    simp at h

theorem strToLower_Local : strToLower "Local" = "local" := by decide

theorem name_ne_Local_of_toLower {s : String} (h : strToLower s ≠ "local") :
    s ≠ "Local" := by
  intro e
  apply h
  rw [e]
  exact strToLower_Local

/-- Invariant of the machine: apart from the single undo marker
`LoadedProfile ++ ".bak"` no `.bak`-suffixed path ever holds a file, and the
marker holds a file exactly while a profile whose Load found an existing
active file is loaded. -/
theorem reach_inv (ad : String) (fs0 : FS)
    (hinit : ∀ q r, q = r ++ ".bak" → fs0 q = .absent) :
    ∀ fs st, Reach ad fs0 fs st →
      (∀ q r, q = r ++ ".bak" → q ≠ LoadedProfile ad ++ ".bak" → fs q = .absent) ∧
      (match st with
       | .idle => fs (LoadedProfile ad ++ ".bak") = .absent
       | .loaded p b => p.path = "" ∧ p.Name ≠ "Local" ∧
           ((b = true ∧ ∃ m, fs (LoadedProfile ad ++ ".bak") = .present m) ∨
            (b = false ∧ fs (LoadedProfile ad ++ ".bak") = .absent))) := by
  intro fs st hreach
  induction hreach with
  | init =>
    exact ⟨fun q r hq _ => hinit q r hq, hinit _ (LoadedProfile ad) rfl⟩
  | @step fsA stA fsB stB hr hs ih =>
    cases hs with
    | load p _ _ hpath hname h =>
      obtain ⟨ih1, ih2⟩ := ih
      have hnameL : p.Name ≠ "Local" := name_ne_Local_of_toLower hname
      constructor
      · intro q r hq hqm
        have hql : strLast q = some 'k' := by rw [hq]; exact strLast_bakSuffix r
        have hqa : q ≠ LoadedProfile ad :=
          ne_of_strLast (by rw [hql, strLast_LoadedProfile]; decide)
        have hfp := LoadFile_footprint ad p fsA q hqa hqm
        rw [h] at hfp
        exact hfp.trans (ih1 q r hq hqm)
      · obtain ⟨hT, hF⟩ := LoadFile_inv ad p fsA fsB hpath hnameL h
        refine ⟨hpath, hnameL, ?_⟩
        rcases hfe : FileExists (LoadedProfile ad) fsA with _ | _
        · exact Or.inr ⟨rfl, by rw [hF hfe]; exact ih2⟩
        · exact Or.inl ⟨rfl, hT hfe⟩
    | launch _ _ =>
      exact ih
    | unload p b _ _ h =>
      obtain ⟨ih1, ih2⟩ := ih
      obtain ⟨hpath, hnameL, _⟩ := ih2
      constructor
      · intro q r hq hqm
        have hql : strLast q = some 'k' := by rw [hq]; exact strLast_bakSuffix r
        have hqa : q ≠ LoadedProfile ad :=
          ne_of_strLast (by rw [hql, strLast_LoadedProfile]; decide)
        have hqP : q ≠ p.Path ad :=
          ne_of_strLast (by rw [hql, strLast_Path ad p hpath]; decide)
        have hqs : ∀ j : Nat, q ≠ p.getBackup ad (Int.ofNat j) := by
          intro j
          refine ne_of_strLast ?_
          rw [hql, strLast_getBackup ad p j]
          intro hc
          exact digitChar_ne_k _ (Nat.mod_lt _ (by omega)) (Option.some.inj hc).symm
        have hfp := UnloadFile_footprint ad p fsA q hqP hqa hqm hqs
        rw [h] at hfp
        exact hfp.trans (ih1 q r hq hqm)
      · exact UnloadFile_marker ad p fsA fsB h


/-- State after `K` successful cycles, starting from a clean state (no
backups, no marker): the saved file holds the last written content, backup
slot `j < min(K, Preserve)` holds the content superseded `j+1` cycles ago,
and all other slots are absent. -/
theorem runCycles_spec (ad : String) (p : Profile) (cseq : Nat → List Nat)
    (s0 a : List Nat) (fs0 : FS)
    (hpath : p.path = "") (hname : p.Name ≠ "Local") (hpres : 1 ≤ p.Preserve)
    (hsav : fs0 (p.Path ad) = .present s0)
    (hact : fs0 (LoadedProfile ad) = .present a)
    (hmkr : fs0 (LoadedProfile ad ++ ".bak") = .absent)
    (hslots : ∀ j : Nat, fs0 (p.getBackup ad (Int.ofNat j)) = .absent) :
    ∀ K : Nat, ∃ fsK, runCycles ad p cseq K fs0 = (fsK, none) ∧
      fsK (p.Path ad) = .present (savedAt s0 cseq K) ∧
      fsK (LoadedProfile ad) = .present a ∧
      fsK (LoadedProfile ad ++ ".bak") = .absent ∧
      (∀ j : Nat, j < p.Preserve.toNat →
        fsK (p.getBackup ad (Int.ofNat j)) =
          (if j < K then .present (savedAt s0 cseq (K - 1 - j)) else .absent)) ∧
      (∀ j : Nat, p.Preserve.toNat ≤ j →
        fsK (p.getBackup ad (Int.ofNat j)) = .absent) := by
  intro K
  induction K with
  | zero =>
    refine ⟨fs0, rfl, hsav, hact, hmkr, ?_, ?_⟩
    · intro j _
      rw [if_neg (by omega), hslots j]
    · intro j _
      exact hslots j
  | succ K ih =>
    obtain ⟨fsK, hrun, ihsav, ihact, ihmkr, ihlt, ihge⟩ := ih
    obtain ⟨fsL, hload, hLact, hLsav, hLmkr, hLframe⟩ :=
      LoadFile_spec ad p fsK (savedAt s0 cseq K) hpath hname ihsav
        (by rw [ihact]; intro hc; cases hc)
    rw [ihact] at hLmkr
    set fsC := setFS (LoadedProfile ad) (.present (cseq K)) fsL with hfsC
    have hCsav : fsC (p.Path ad) = .present (savedAt s0 cseq K) := by
      rw [hfsC, setFS_other _ _ _ _ (Path_ne_Loaded ad p hpath hname)]
      exact hLsav
    have hCact : fsC (LoadedProfile ad) = .present (cseq K) := setFS_same _ _ _
    have hCmkr : fsC (LoadedProfile ad ++ ".bak") = .present a := by
      rw [hfsC, setFS_other _ _ _ _ (Ne.symm (Loaded_ne_bak ad (LoadedProfile ad)))]
      exact hLmkr
    have hCslot : ∀ j : Nat, fsC (p.getBackup ad (Int.ofNat j)) =
        fsK (p.getBackup ad (Int.ofNat j)) := by
      intro j
      rw [hfsC, setFS_other _ _ _ _ (getBackup_ne_Loaded ad p j)]
      exact hLframe _ (getBackup_ne_Loaded ad p j) (getBackup_ne_bak ad p j _)
    obtain ⟨fsU, hunload, hUsav, hUslot0, hUshift, hUmkr, hUact, hUframe⟩ :=
      UnloadFile_spec ad p fsC (savedAt s0 cseq K) (cseq K) hpath hname hpres
        hCsav hCact (by rw [hCmkr]; intro hc; cases hc)
        (by
          intro j hj
          rw [hCslot j, ihlt j hj]
          split <;> (intro hc; cases hc))
    have hcy : runCycle ad p (cseq K) fsK = (fsU, none) := by
      unfold runCycle
      rw [hload]
      exact hunload
    have hAll : runCycles ad p cseq (K+1) fs0 = (fsU, none) := by
      simp only [runCycles]
      rw [hrun]
      exact hcy
    rw [hCmkr] at hUact
    refine ⟨fsU, hAll, hUsav, hUact, hUmkr, ?_, ?_⟩
    · intro j hj
      rcases Nat.eq_zero_or_pos j with h0 | hpos
      · subst h0
        rw [hUslot0, if_pos (by omega)]
        have he : K + 1 - 1 - 0 = K := by omega
        rw [he]
      · rw [hUshift j hpos hj, hCslot (j-1), ihlt (j-1) (by omega)]
        by_cases hjK : j < K + 1
        · rw [if_pos (by omega), if_pos hjK]
          have he : K - 1 - (j - 1) = K + 1 - 1 - j := by omega
          rw [he]
        · rw [if_neg (by omega), if_neg hjK]
    · intro j hj
      have h1 : fsU (p.getBackup ad (Int.ofNat j)) = fsC (p.getBackup ad (Int.ofNat j)) :=
        hUframe _ (getBackup_ne_Path ad p j hpath) (getBackup_ne_Loaded ad p j)
          (getBackup_ne_bak ad p j _)
          (fun m hm => getBackup_ne_getBackup ad p (by omega))
      rw [h1, hCslot j, ihge j hj]


/-! ### Claim theorems -/

/-- Helper: backup slots are absent in the `fsCycles` fixture. -/
theorem fsCycles_backup (j : Nat) :
    fsCycles (Profile.getBackup "A" pAlice (Int.ofNat j)) = .absent := by
  simp only [fsCycles]
  rw [if_neg (getBackup_ne_Loaded "A" pAlice j), if_neg (getBackup_ne_Path "A" pAlice j rfl)]

/-- Helper: backup slots are absent in the `fsNoActive` fixture. -/
theorem fsNoActive_backup (j : Nat) :
    fsNoActive (Profile.getBackup "A" pAlice (Int.ofNat j)) = .absent := by
  simp only [fsNoActive]
  rw [if_neg (getBackup_ne_Path "A" pAlice j rfl)]

/-- C1 fails as stated: for the profile "Alice" whose saved file does not
exist, `LoadFile` returns an error instead of succeeding. -/
theorem C1_counterexample :
    fsLoadFail (Profile.Path "A" pAlice) = .absent ∧
    (Profile.LoadFile "A" pAlice fsLoadFail).2 ≠ none := by decide

/-- C1 (amended): for every profile whose saved file does not exist, Load
first backs up an existing active file and leaves the active path absent,
but then FAILS with a not-exist error from opening the saved file (rather
than returning success); for every profile whose saved file exists, Load
copies its bytes into the active path and succeeds. -/
theorem C1_load_missing_saved_file (ad : String) (p : Profile) (fs : FS)
    (hpath : p.path = "") (hname : p.Name ≠ "Local")
    (hact : fs (LoadedProfile ad) ≠ .unstatable) :
    (fs (p.Path ad) = .absent →
      (p.LoadFile ad fs).2 = some (.notExist (p.Path ad)) ∧
      (p.LoadFile ad fs).1 (LoadedProfile ad) = .absent ∧
      (∀ a, fs (LoadedProfile ad) = .present a →
        (p.LoadFile ad fs).1 (LoadedProfile ad ++ ".bak") = .present a)) ∧
    (∀ s, fs (p.Path ad) = .present s →
      (p.LoadFile ad fs).2 = none ∧
      (p.LoadFile ad fs).1 (LoadedProfile ad) = .present s) := by
  constructor
  · intro hsav
    rcases ha : fs (LoadedProfile ad) with _ | a | _
    · have hb : p.LoadFile ad fs = SimpleCopy (p.Path ad) (LoadedProfile ad) fs := by
        unfold Profile.LoadFile
        rw [SimpleBackup_absent ha]
      rw [hb, SimpleCopy_src_absent hsav]
      refine ⟨rfl, ha, ?_⟩
      intro a ha2
      cases ha2
    · have hne : p.Path ad ≠ LoadedProfile ad := by
        intro e
        rw [e, ha] at hsav
        cases hsav
      have hPB := Path_ne_bak ad p hpath (LoadedProfile ad)
      have hLB := Loaded_ne_bak ad (LoadedProfile ad)
      have hb : p.LoadFile ad fs = SimpleCopy (p.Path ad) (LoadedProfile ad)
          (setFS (LoadedProfile ad ++ ".bak") (.present a)
            (setFS (LoadedProfile ad) .absent fs)) := by
        unfold Profile.LoadFile
        rw [SimpleBackup_present ha]
      have hsb : setFS (LoadedProfile ad ++ ".bak") (.present a)
          (setFS (LoadedProfile ad) .absent fs) (p.Path ad) = .absent := by
        rw [setFS_other _ _ _ _ hPB, setFS_other _ _ _ _ hne, hsav]
      rw [hb, SimpleCopy_src_absent hsb]
      refine ⟨rfl, ?_, ?_⟩
      · show setFS (LoadedProfile ad ++ ".bak") (.present a)
          (setFS (LoadedProfile ad) .absent fs) (LoadedProfile ad) = .absent
        rw [setFS_other _ _ _ _ hLB, setFS_same]
      · intro a2 ha2
        cases ha2
        show setFS (LoadedProfile ad ++ ".bak") (.present a)
          (setFS (LoadedProfile ad) .absent fs) (LoadedProfile ad ++ ".bak") = .present a
        rw [setFS_same]
    · exact absurd ha hact
  · intro s hsav
    obtain ⟨fs1, heq, h1, _, _, _⟩ := LoadFile_spec ad p fs s hpath hname hsav hact
    rw [heq]
    exact ⟨rfl, h1⟩

/-- Witness for C1: the amended theorem applied to the "Alice" profile with
its saved file absent and an active file present. -/
theorem C1_witness :
    (Profile.LoadFile "A" pAlice fsLoadFail).2 =
      some (.notExist (Profile.Path "A" pAlice)) ∧
    (Profile.LoadFile "A" pAlice fsLoadFail).1 (LoadedProfile "A") = .absent :=
  ⟨((C1_load_missing_saved_file "A" pAlice fsLoadFail rfl (by decide) (by decide)).1
      (by decide)).1,
   ((C1_load_missing_saved_file "A" pAlice fsLoadFail rfl (by decide) (by decide)).1
      (by decide)).2.1⟩

/-- C2 fails as stated: when the deferred Unload fails (here because backup
slot 0 cannot be statted), its error is silently discarded — the process
shows no prompt and exits 0. -/
theorem C2_counterexample :
    (mainRun "A" pAlice none fsUnloadFail).discarded ≠ [] ∧
    (mainRun "A" pAlice none fsUnloadFail).exitCode = 0 ∧
    (mainRun "A" pAlice none fsUnloadFail).prompted = false := by decide

/-- C2 (amended): errors from Load and from Launch abort the remaining
steps and are surfaced through the blocking prompt with exit code 1 (a
Launch error also skips the deferred Unload, since `os.Exit` bypasses
deferred calls); but an error returned by the deferred Unload is silently
discarded and the process exits 0 without a prompt. -/
theorem C2_error_surfacing (ad : String) (p : Profile) (cr : Option IOError) (fs : FS)
    (hname : strToLower p.Name ≠ "local") :
    (∀ fs1 e, p.LoadFile ad fs = (fs1, some e) →
      mainRun ad p cr fs = ⟨fs1, [.load], 1, true, [e], []⟩) ∧
    (∀ fs1, p.LoadFile ad fs = (fs1, none) →
      ∀ e, LaunchGW2 p.Options fs1 cr = some e →
        mainRun ad p cr fs = ⟨fs1, [.load, .launch], 1, true, [e], []⟩) ∧
    (∀ fs1, p.LoadFile ad fs = (fs1, none) → LaunchGW2 p.Options fs1 cr = none →
      ∀ fs2 e, p.UnloadFile ad fs1 = (fs2, some e) →
        mainRun ad p cr fs = ⟨fs2, [.load, .launch, .unload], 0, false, [], [e]⟩) := by
  refine ⟨?_, ?_, ?_⟩
  · intro fs1 e hl
    unfold mainRun
    rw [if_pos hname, hl]
  · intro fs1 hl e hlaunch
    have m1 : mainRun ad p cr fs =
        (match LaunchGW2 p.Options fs1 cr with
          | some e => ⟨fs1, [.load, .launch], 1, true, [e], []⟩
          | none =>
            match p.UnloadFile ad fs1 with
            | (fs2, some e) => ⟨fs2, [.load, .launch, .unload], 0, false, [], [e]⟩
            | (fs2, none) => ⟨fs2, [.load, .launch, .unload], 0, false, [], []⟩) := by
      unfold mainRun
      rw [if_pos hname, hl]
    rw [m1, hlaunch]
  · intro fs1 hl hlaunch fs2 e hu
    have m1 : mainRun ad p cr fs =
        (match LaunchGW2 p.Options fs1 cr with
          | some e => ⟨fs1, [.load, .launch], 1, true, [e], []⟩
          | none =>
            match p.UnloadFile ad fs1 with
            | (fs2, some e) => ⟨fs2, [.load, .launch, .unload], 0, false, [], [e]⟩
            | (fs2, none) => ⟨fs2, [.load, .launch, .unload], 0, false, [], []⟩) := by
      unfold mainRun
      rw [if_pos hname, hl]
    have m2 : mainRun ad p cr fs =
        (match p.UnloadFile ad fs1 with
          | (fs2, some e) => ⟨fs2, [.load, .launch, .unload], 0, false, [], [e]⟩
          | (fs2, none) => ⟨fs2, [.load, .launch, .unload], 0, false, [], []⟩) := by
      rw [m1, hlaunch]
    rw [m2, hu]

/-- Witness for C2: the three error channels exercised on concrete states —
a failed Load (saved file missing), a failed Launch (child error), and a
failed deferred Unload (unstatable backup slot 0). -/
theorem C2_witness :
    mainRun "A" pAlice none fsLoadFail =
      ⟨(Profile.LoadFile "A" pAlice fsLoadFail).1, [.load], 1, true,
        [.notExist (Profile.Path "A" pAlice)], []⟩ ∧
    mainRun "A" pAlice (some (.ioError ExecPath)) fsHappy =
      ⟨(Profile.LoadFile "A" pAlice fsHappy).1, [.load, .launch], 1, true,
        [.ioError ExecPath], []⟩ ∧
    mainRun "A" pAlice none fsUnloadFail =
      ⟨(Profile.UnloadFile "A" pAlice (Profile.LoadFile "A" pAlice fsUnloadFail).1).1,
        [.load, .launch, .unload], 0, false, [],
        [.ioError (Profile.getBackup "A" pAlice 0)]⟩ := by
  refine ⟨?_, ?_, ?_⟩
  · exact (C2_error_surfacing "A" pAlice none fsLoadFail (by decide)).1
      (Profile.LoadFile "A" pAlice fsLoadFail).1
      (.notExist (Profile.Path "A" pAlice)) rfl
  · exact (C2_error_surfacing "A" pAlice (some (.ioError ExecPath)) fsHappy (by decide)).2.1
      (Profile.LoadFile "A" pAlice fsHappy).1 rfl (.ioError ExecPath) rfl
  · exact (C2_error_surfacing "A" pAlice none fsUnloadFail (by decide)).2.2
      (Profile.LoadFile "A" pAlice fsUnloadFail).1 rfl rfl
      (Profile.UnloadFile "A" pAlice (Profile.LoadFile "A" pAlice fsUnloadFail).1).1
      (.ioError (Profile.getBackup "A" pAlice 0)) rfl

/-- C3 fails as stated: in a filesystem where a spec-described candidate
(under an installation-root environment variable) exists but the hardcoded
`ExecPath` does not, the spec's launch would succeed while the code returns
a not-found error — the code consults no candidate list. -/
theorem C3_counterexample :
    specLaunch envD fsAltInstall none = none ∧
    LaunchGW2 [] fsAltInstall none = some (.notExist ExecPath) := by decide

/-- C3 (amended): Launch invokes the single fixed executable path
`ExecPath` with the forwarded options; it fails with a not-found error if
and only if that one path is absent (and with a generic I/O error if the
path cannot be statted). -/
theorem C3_launch_fixed_path (options : List String) (fs : FS) (cr : Option IOError) :
    (∀ c, fs ExecPath = .present c → LaunchGW2 options fs cr = cr) ∧
    (fs ExecPath = .absent → LaunchGW2 options fs cr = some (.notExist ExecPath)) ∧
    (fs ExecPath = .unstatable → LaunchGW2 options fs cr = some (.ioError ExecPath)) := by
  refine ⟨?_, ?_, ?_⟩
  · intro c h
    unfold LaunchGW2
    rw [h]
  · intro h
    unfold LaunchGW2
    rw [h]
  · intro h
    unfold LaunchGW2
    rw [h]

/-- Witness for C3: the fixed path present (child result is returned) and
absent (not-found error). -/
theorem C3_witness :
    LaunchGW2 [] fsHappy none = none ∧
    LaunchGW2 [] fsEmpty none = some (.notExist ExecPath) :=
  ⟨(C3_launch_fixed_path [] fsHappy none).1 [] (by decide),
   (C3_launch_fixed_path [] fsEmpty none).2.1 rfl⟩

/-- C7: for every `preserveCount ≤ 0`, RollBackups is a no-op — it returns
the filesystem unchanged (no file created or removed) and no error. -/
theorem C7_rotate_disabled (ad : String) (p : Profile) (fs : FS) (h : p.Preserve < 1) :
    p.RollBackups ad fs = (fs, none) := by
  unfold Profile.RollBackups
  rw [if_pos h]

/-- Witness for C7 at `Preserve = 0`. -/
theorem C7_witness :
    Profile.RollBackups "A" ⟨"Alice", [], 0, ""⟩ fsHappy = (fsHappy, none) :=
  C7_rotate_disabled "A" ⟨"Alice", [], 0, ""⟩ fsHappy (by decide)

/-- C10: `FileExists` returns true when stat fails with any error other
than not-exist, so the existence guards in `SimpleBackup`, `SimpleRestore`
and the `RollBackups` loop treat an unstatable file as existing and proceed
to rename it (the rename then failing with an I/O error). -/
theorem C10_unstatable_treated_as_existing (file ad : String) (p : Profile)
    (fs : FS) (k : Nat) :
    (fs file = .unstatable → FileExists file fs = true) ∧
    (fs file = .unstatable → SimpleBackup file fs = osRename file (file ++ ".bak") fs) ∧
    (fs (file ++ ".bak") = .unstatable →
      SimpleRestore file fs = osRename (file ++ ".bak") file fs) ∧
    (fs (p.getBackup ad (Int.ofNat k)) = .unstatable →
      rollLoop ad p (k+1) fs = (fs, some (.ioError (p.getBackup ad (Int.ofNat k))))) := by
  refine ⟨?_, ?_, ?_, ?_⟩
  · exact fun h => FileExists_unstatable h
  · intro h
    unfold SimpleBackup
    rw [FileExists_unstatable h, if_pos rfl]
  · intro h
    unfold SimpleRestore
    rw [FileExists_unstatable h, if_pos rfl]
  · intro h
    have hr : osRename (p.getBackup ad (Int.ofNat k)) (p.getBackup ad (Int.ofNat (k+1))) fs =
        (fs, some (.ioError (p.getBackup ad (Int.ofNat k)))) := by
      unfold osRename
      rw [h]
    simp only [rollLoop]
    rw [FileExists_unstatable h, if_pos rfl, hr]

/-- Witness for C10 on an all-unstatable filesystem. -/
theorem C10_witness :
    FileExists "f" fsAllUnstat = true ∧
    SimpleBackup "f" fsAllUnstat = osRename "f" ("f" ++ ".bak") fsAllUnstat ∧
    SimpleRestore "f" fsAllUnstat = osRename ("f" ++ ".bak") "f" fsAllUnstat ∧
    rollLoop "A" pAlice 1 fsAllUnstat =
      (fsAllUnstat, some (.ioError (Profile.getBackup "A" pAlice (Int.ofNat 0)))) :=
  ⟨(C10_unstatable_treated_as_existing "f" "A" pAlice fsAllUnstat 0).1 rfl,
   (C10_unstatable_treated_as_existing "f" "A" pAlice fsAllUnstat 0).2.1 rfl,
   (C10_unstatable_treated_as_existing "f" "A" pAlice fsAllUnstat 0).2.2.1 rfl,
   (C10_unstatable_treated_as_existing "f" "A" pAlice fsAllUnstat 0).2.2.2 rfl⟩


/-- C4: for every `preserveCount = N > 0`: (a) each rotation renames slot
`i-1` to slot `i` for `i` from `N-1` down to `1` (skipping absent slots,
slot `N-1` having been removed first) and then renames the pre-unload saved
file to slot 0, touching nothing else; (b) after `K ≥ N` successive
successful Unload/Load cycles exactly the `N` slots `0..N-1` exist, slot 0
holding the most recently superseded version. -/
theorem C4_backup_rotation (ad : String) (p : Profile) (hpath : p.path = "")
    (hname : p.Name ≠ "Local") (hpres : 1 ≤ p.Preserve) :
    (∀ fs s, fs (p.Path ad) = .present s →
      (∀ j : Nat, j < p.Preserve.toNat → fs (p.getBackup ad (Int.ofNat j)) ≠ .unstatable) →
      ∃ fs1, p.RollBackups ad fs = (fs1, none) ∧
        fs1 (p.getBackup ad (Int.ofNat 0)) = .present s ∧
        (∀ j : Nat, 1 ≤ j → j < p.Preserve.toNat →
          fs1 (p.getBackup ad (Int.ofNat j)) = fs (p.getBackup ad (Int.ofNat (j-1)))) ∧
        (∀ j : Nat, p.Preserve.toNat ≤ j →
          fs1 (p.getBackup ad (Int.ofNat j)) = fs (p.getBackup ad (Int.ofNat j)))) ∧
    (∀ (cseq : Nat → List Nat) (s0 a : List Nat) (fs0 : FS),
      fs0 (p.Path ad) = .present s0 →
      fs0 (LoadedProfile ad) = .present a →
      fs0 (LoadedProfile ad ++ ".bak") = .absent →
      (∀ j : Nat, fs0 (p.getBackup ad (Int.ofNat j)) = .absent) →
      ∀ K : Nat, p.Preserve.toNat ≤ K →
        ∃ fsK, runCycles ad p cseq K fs0 = (fsK, none) ∧
          (∀ j : Nat, j < p.Preserve.toNat →
            fsK (p.getBackup ad (Int.ofNat j)) = .present (savedAt s0 cseq (K - 1 - j))) ∧
          (∀ j : Nat, p.Preserve.toNat ≤ j → fsK (p.getBackup ad (Int.ofNat j)) = .absent) ∧
          fsK (p.getBackup ad (Int.ofNat 0)) = .present (savedAt s0 cseq (K - 1))) := by
  constructor
  · intro fs s hsav hslots
    obtain ⟨fs1, hrun, h0, hsh, _, hfr⟩ := RollBackups_spec ad p fs s hpath hpres hsav hslots
    refine ⟨fs1, hrun, h0, hsh, ?_⟩
    intro j hj
    exact hfr _ (getBackup_ne_Path ad p j hpath)
      (fun m hm => getBackup_ne_getBackup ad p (by omega))
  · intro cseq s0 a fs0 h1 h2 h3 h4 K hK
    obtain ⟨fsK, hrun, _, _, _, hlt, hge⟩ :=
      runCycles_spec ad p cseq s0 a fs0 hpath hname hpres h1 h2 h3 h4 K
    refine ⟨fsK, hrun, ?_, hge, ?_⟩
    · intro j hj
      rw [hlt j hj, if_pos (by omega)]
    · rw [hlt 0 (by omega), if_pos (by omega), Nat.sub_zero]

/-- Witness for C4: profile "Alice" with `Preserve = 2`, two cycles writing
`[0]` then `[1]`. -/
theorem C4_witness :
    ∃ fsK, runCycles "A" pAlice (fun k => [k]) 2 fsCycles = (fsK, none) ∧
      (∀ j : Nat, j < pAlice.Preserve.toNat →
        fsK (Profile.getBackup "A" pAlice (Int.ofNat j)) =
          .present (savedAt [2] (fun k => [k]) (2 - 1 - j))) ∧
      (∀ j : Nat, pAlice.Preserve.toNat ≤ j →
        fsK (Profile.getBackup "A" pAlice (Int.ofNat j)) = .absent) ∧
      fsK (Profile.getBackup "A" pAlice (Int.ofNat 0)) =
        .present (savedAt [2] (fun k => [k]) (2 - 1)) :=
  (C4_backup_rotation "A" pAlice rfl (by decide) (by decide)).2
    (fun k => [k]) [2] [1] fsCycles (by decide) (by decide) (by decide)
    (fun j => fsCycles_backup j) 2 (by decide)

/-- C5: for every profile whose saved file exists, Load immediately
followed by Unload with no intervening modification of the active file
leaves the saved profile file with exactly its pre-Load byte content. -/
theorem C5_roundtrip_restores_saved (ad : String) (p : Profile) (fs : FS) (s : List Nat)
    (hpath : p.path = "") (hname : p.Name ≠ "Local")
    (hsav : fs (p.Path ad) = .present s)
    (hact : fs (LoadedProfile ad) ≠ .unstatable)
    (hmkr : fs (LoadedProfile ad ++ ".bak") ≠ .unstatable)
    (hslots : ∀ j : Nat, fs (p.getBackup ad (Int.ofNat j)) ≠ .unstatable) :
    ∃ fs1 fs2, p.LoadFile ad fs = (fs1, none) ∧ p.UnloadFile ad fs1 = (fs2, none) ∧
      fs2 (p.Path ad) = .present s := by
  obtain ⟨fs1, hload, hLact, hLsav, hLmkr, hLframe⟩ :=
    LoadFile_spec ad p fs s hpath hname hsav hact
  have hmkr1 : fs1 (LoadedProfile ad ++ ".bak") ≠ .unstatable := by
    rcases ha : fs (LoadedProfile ad) with _ | a | _
    · rw [ha] at hLmkr
      rw [hLmkr]
      exact hmkr
    · rw [ha] at hLmkr
      rw [hLmkr]
      intro hc; cases hc
    · exact absurd ha hact
  have hslots1 : ∀ j : Nat, j < p.Preserve.toNat →
      fs1 (p.getBackup ad (Int.ofNat j)) ≠ .unstatable := by
    intro j _
    rw [hLframe _ (getBackup_ne_Loaded ad p j) (getBackup_ne_bak ad p j _)]
    exact hslots j
  rcases Nat.lt_or_ge 0 p.Preserve.toNat with hge | hle
  · have hpres : 1 ≤ p.Preserve := by omega
    obtain ⟨fs2, hunload, hUsav, _, _, _, _, _⟩ :=
      UnloadFile_spec ad p fs1 s s hpath hname hpres hLsav hLact hmkr1 hslots1
    exact ⟨fs1, fs2, hload, hunload, hUsav⟩
  · have hpres : p.Preserve < 1 := by omega
    obtain ⟨fs2, hunload, hUsav, _, _, _⟩ :=
      UnloadFile_spec0 ad p fs1 s hpath hname hpres
        (by rw [hLsav]; intro hc; cases hc) hLact hmkr1
    exact ⟨fs1, fs2, hload, hunload, hUsav⟩

/-- Witness for C5 on the concrete "Alice" state. -/
theorem C5_witness :
    ∃ fs1 fs2, Profile.LoadFile "A" pAlice fsCycles = (fs1, none) ∧
      Profile.UnloadFile "A" pAlice fs1 = (fs2, none) ∧
      fs2 (Profile.Path "A" pAlice) = .present [2] :=
  C5_roundtrip_restores_saved "A" pAlice fsCycles [2] rfl (by decide) (by decide)
    (by decide) (by decide)
    (fun j => by rw [fsCycles_backup j]; intro hc; cases hc)

/-- C6 fails as stated: with a non-"local" name, when the launched process
exits with an error (non-zero status), `Exit` terminates the program via
`os.Exit` and the deferred Unload never runs. -/
theorem C6_counterexample :
    (mainRun "A" pAlice (some (.ioError ExecPath)) fsHappy).events = [Ev.load, Ev.launch] ∧
    Ev.unload ∉ (mainRun "A" pAlice (some (.ioError ExecPath)) fsHappy).events := by
  decide

/-- C6 (amended): for every profile name equal to "local" under
case-insensitive comparison, neither Load nor Unload is ever invoked and
only Launch runs; for every other name Load runs before Launch, and Unload
runs after the launched process exits provided Launch reported success —
when Launch reports an error (including a non-zero child exit) Unload is
skipped. -/
theorem C6_local_sentinel (ad : String) (p : Profile) (cr : Option IOError) (fs : FS) :
    (strToLower p.Name = "local" → (mainRun ad p cr fs).events = [.launch]) ∧
    (strToLower p.Name ≠ "local" →
      ∀ fs1, p.LoadFile ad fs = (fs1, none) →
        (LaunchGW2 p.Options fs1 cr = none →
          (mainRun ad p cr fs).events = [.load, .launch, .unload]) ∧
        (∀ e, LaunchGW2 p.Options fs1 cr = some e →
          (mainRun ad p cr fs).events = [.load, .launch])) := by
  constructor
  · intro h
    unfold mainRun
    rw [if_neg (fun hc => hc h)]
    rcases hl : LaunchGW2 p.Options fs cr with _ | e
    · rfl
    · rfl
  · intro hname fs1 hl
    have m1 : mainRun ad p cr fs =
        (match LaunchGW2 p.Options fs1 cr with
          | some e => ⟨fs1, [.load, .launch], 1, true, [e], []⟩
          | none =>
            match p.UnloadFile ad fs1 with
            | (fs2, some e) => ⟨fs2, [.load, .launch, .unload], 0, false, [], [e]⟩
            | (fs2, none) => ⟨fs2, [.load, .launch, .unload], 0, false, [], []⟩) := by
      unfold mainRun
      rw [if_pos hname, hl]
    constructor
    · intro hlaunch
      rw [m1, hlaunch]
      rcases hu : p.UnloadFile ad fs1 with ⟨fs2, _ | e⟩ <;> rfl
    · intro e hlaunch
      rw [m1, hlaunch]

/-- Witness for C6: an all-caps "LOCAL" profile launches without
loading, while "Alice" runs the full Load/Launch/Unload sequence. -/
theorem C6_witness :
    (mainRun "A" ⟨"LOCAL", [], 2, ""⟩ none fsHappy).events = [Ev.launch] ∧
    (mainRun "A" pAlice none fsHappy).events = [Ev.load, Ev.launch, Ev.unload] := by
  constructor
  · exact (C6_local_sentinel "A" ⟨"LOCAL", [], 2, ""⟩ none fsHappy).1 (by decide)
  · exact ((C6_local_sentinel "A" pAlice none fsHappy).2 (by decide)
      (Profile.LoadFile "A" pAlice fsHappy).1 rfl).1 rfl

/-- C8: for every run in which no active file exists before Load (and the
saved file does, so the run proceeds), the subsequent Unload returns
success and no `.bak` marker file exists afterward. -/
theorem C8_no_active_no_marker (ad : String) (p : Profile) (fs : FS) (s : List Nat)
    (hpath : p.path = "") (hname : p.Name ≠ "Local")
    (hact : fs (LoadedProfile ad) = .absent)
    (hmkr : fs (LoadedProfile ad ++ ".bak") = .absent)
    (hsav : fs (p.Path ad) = .present s)
    (hslots : ∀ j : Nat, fs (p.getBackup ad (Int.ofNat j)) ≠ .unstatable) :
    ∃ fs1 fs2, p.LoadFile ad fs = (fs1, none) ∧ p.UnloadFile ad fs1 = (fs2, none) ∧
      fs2 (LoadedProfile ad ++ ".bak") = .absent := by
  obtain ⟨fs1, hload, hLact, hLsav, hLmkr, hLframe⟩ :=
    LoadFile_spec ad p fs s hpath hname hsav (by rw [hact]; intro hc; cases hc)
  rw [hact] at hLmkr
  have hmkr1 : fs1 (LoadedProfile ad ++ ".bak") = .absent := by rw [hLmkr]; exact hmkr
  have hslots1 : ∀ j : Nat, j < p.Preserve.toNat →
      fs1 (p.getBackup ad (Int.ofNat j)) ≠ .unstatable := by
    intro j _
    rw [hLframe _ (getBackup_ne_Loaded ad p j) (getBackup_ne_bak ad p j _)]
    exact hslots j
  rcases Nat.lt_or_ge 0 p.Preserve.toNat with hge | hle
  · have hpres : 1 ≤ p.Preserve := by omega
    obtain ⟨fs2, hunload, _, _, _, hUmkr, _, _⟩ :=
      UnloadFile_spec ad p fs1 s s hpath hname hpres hLsav hLact
        (by rw [hmkr1]; intro hc; cases hc) hslots1
    exact ⟨fs1, fs2, hload, hunload, hUmkr⟩
  · have hpres : p.Preserve < 1 := by omega
    obtain ⟨fs2, hunload, _, hUmkr, _, _⟩ :=
      UnloadFile_spec0 ad p fs1 s hpath hname hpres
        (by rw [hLsav]; intro hc; cases hc) hLact
        (by rw [hmkr1]; intro hc; cases hc)
    exact ⟨fs1, fs2, hload, hunload, hUmkr⟩

/-- Witness for C8 on the concrete no-active-file state. -/
theorem C8_witness :
    ∃ fs1 fs2, Profile.LoadFile "A" pAlice fsNoActive = (fs1, none) ∧
      Profile.UnloadFile "A" pAlice fs1 = (fs2, none) ∧
      fs2 (LoadedProfile "A" ++ ".bak") = .absent :=
  C8_no_active_no_marker "A" pAlice fsNoActive [2] rfl (by decide) (by decide)
    (by decide) (by decide)
    (fun j => by rw [fsNoActive_backup j]; intro hc; cases hc)

/-- C9: in every filesystem state reachable by the program's sequences of
Load, Launch, and Unload operations from a state with no `.bak` files, at
most one `.bak` marker exists (every `.bak` path other than the single undo
marker stays absent), and the marker holds a file exactly between a Load
that found an existing active file and the matching Unload. -/
theorem C9_single_bak_marker (ad : String) (fs0 : FS)
    (hinit : ∀ q r, q = r ++ ".bak" → fs0 q = .absent) :
    ∀ fs st, Reach ad fs0 fs st →
      (∀ q r, q = r ++ ".bak" → q ≠ LoadedProfile ad ++ ".bak" → fs q = .absent) ∧
      (st = .idle → fs (LoadedProfile ad ++ ".bak") = .absent) ∧
      (∀ p b, st = .loaded p b →
        ((b = true ∧ ∃ m, fs (LoadedProfile ad ++ ".bak") = .present m) ∨
         (b = false ∧ fs (LoadedProfile ad ++ ".bak") = .absent))) := by
  intro fs st h
  obtain ⟨h1, h2⟩ := reach_inv ad fs0 hinit fs st h
  refine ⟨h1, ?_, ?_⟩
  · intro he
    subst he
    exact h2
  · intro p b he
    subst he
    exact h2.2.2

/-- Witness for C9 at the initial empty filesystem. -/
theorem C9_witness :
    (∀ q r, q = r ++ ".bak" → q ≠ LoadedProfile "A" ++ ".bak" → fsEmpty q = .absent) ∧
    (MState.idle = MState.idle → fsEmpty (LoadedProfile "A" ++ ".bak") = .absent) ∧
    (∀ p b, MState.idle = MState.loaded p b →
      ((b = true ∧ ∃ m, fsEmpty (LoadedProfile "A" ++ ".bak") = .present m) ∨
       (b = false ∧ fsEmpty (LoadedProfile "A" ++ ".bak") = .absent))) :=
  C9_single_bak_marker "A" fsEmpty (fun _ _ _ => rfl) fsEmpty .idle Reach.init


end Gw2Util
